import Mathlib

/-!
Shallow embedding of texeval2mtex.py, a script converting pole-figure
intensities from a TexEval RES file into DAT tables for MTEX.

Modelling conventions:
  * a file is a list of lines (without their trailing newline; the source
    compares lines only after rstrip, and tokenizes on whitespace, so this
    is equivalent);
  * Python floats are modelled as exact rationals; float(s) on the simple
    decimal literals appearing in RES files is parseFloatQ, round(x, 3) is
    pyRound3 (round half to even), the percent-formats are fmt2 / fmt3 / fmtI;
  * a run either finishes, exits cleanly via sys.exit (exit status 0), or
    crashes with an uncaught Python exception; the exception kinds that can
    occur in this program are collected in PyErr;
  * numpy slice assignment on a 1-D row (with clipping and broadcasting)
    is npSetSlice; the pandas data frame columns are modelled per pass as
    a list of plane names, a list of signatures and a list of offsets
    (an unset cell, NaN in pandas, is none).
-/

/-- Exception kinds the script can actually raise at runtime. -/
inductive PyErr where
  /-- TypeError, e.g. range() applied to a float (NaN) bound. -/
  | typeError
  /-- IndexError, e.g. a list index or a positional .iloc index out of bounds. -/
  | indexError
  /-- ValueError, e.g. float() on a non-numeric token, a negative dimension
  to np.zeros, or a numpy broadcast shape mismatch. -/
  | valueError
deriving DecidableEq, Repr

instance {e a : Type} [DecidableEq e] [DecidableEq a] : DecidableEq (Except e a) :=
  fun x y =>
    match x, y with
    | .ok u, .ok v =>
      if h : u = v then .isTrue (by rw [h]) else .isFalse (by intro hc; cases hc; exact h rfl)
    | .error u, .error v =>
      if h : u = v then .isTrue (by rw [h]) else .isFalse (by intro hc; cases hc; exact h rfl)
    | .ok _, .error _ => .isFalse (by intro hc; cases hc)
    | .error _, .ok _ => .isFalse (by intro hc; cases hc)

/-- Character-level whitespace tokenization with an accumulator of the
current token's characters in reverse; empty tokens are dropped, as Python
str.split() with no argument does. -/
def splitWsAux : List Char → List Char → List (List Char)
  | [], acc => if acc = [] then [] else [acc.reverse]
  | c :: cs, acc =>
    if c.isWhitespace then
      if acc = [] then splitWsAux cs [] else acc.reverse :: splitWsAux cs []
    else splitWsAux cs (c :: acc)

/-- Whitespace tokenization, modelling Python str.split() with no argument. -/
def pySplit (s : String) : List String :=
  (splitWsAux s.data []).map String.mk

/-- Trailing-whitespace strip, modelling Python str.rstrip(). -/
def pyRstrip (s : String) : String :=
  String.mk (s.data.reverse.dropWhile Char.isWhitespace).reverse

/-- Truncation toward zero, modelling Python int() applied to a float. -/
def pyTrunc (q : ℚ) : ℤ :=
  if q < 0 then -(Int.floor (-q)) else Int.floor q

/-- Digit value of a character, if it is a decimal digit. -/
def digitVal (c : Char) : Option ℕ :=
  if c.isDigit then some (c.toNat - 48) else none

/-- Accumulating decimal parse of a character list; none on a non-digit. -/
def parseDigitsAux : ℕ → List Char → Option ℕ
  | acc, [] => some acc
  | acc, c :: cs =>
    match digitVal c with
    | some d => parseDigitsAux (acc * 10 + d) cs
    | none => none

/-- Decimal parse of a string of digits. -/
def parseDigits (s : String) : Option ℕ := parseDigitsAux 0 s.data

/-- Split a character list at its first dot: the part before it, and the
part after it when a dot is present. -/
def breakDot : List Char → List Char × Option (List Char)
  | [] => ([], none)
  | c :: cs =>
    if c = '.' then ([], some cs)
    else
      let p := breakDot cs
      (c :: p.1, p.2)

/-- Unsigned decimal literal as a rational: digits, an optional dot and
fraction digits; at least one digit overall, and nothing else. -/
def parseUnsigned (cs : List Char) : Option ℚ :=
  match breakDot cs with
  | (w, none) =>
    if w = [] then none
    else (parseDigitsAux 0 w).map (fun n => (n : ℚ))
  | (w, some f) =>
    if w = [] ∧ f = [] then none
    else
      match parseDigitsAux 0 w, parseDigitsAux 0 f with
      | some n, some m => some ((n : ℚ) + (m : ℚ) / (10 : ℚ) ^ f.length)
      | _, _ => none

/-- Modelling Python float() restricted to the plain decimal literals found
in RES files: an optional sign, digits, an optional dot and fraction digits. -/
def parseFloatQ (s : String) : Option ℚ :=
  match s.data with
  | [] => none
  | c :: rest =>
    if c = '-' then (parseUnsigned rest).map (fun q => -q)
    else if c = '+' then parseUnsigned rest
    else parseUnsigned (c :: rest)

/-- Rounding to the nearest integer, ties to the even integer, as Python
round() does. -/
def roundHalfEven (q : ℚ) : ℤ :=
  let f := Int.floor q
  let r := q - (f : ℚ)
  if r < 1 / 2 then f
  else if 1 / 2 < r then f + 1
  else if f % 2 = 0 then f else f + 1

/-- Modelling Python round(x, 3). -/
def pyRound3 (q : ℚ) : ℚ := (roundHalfEven (q * 1000) : ℚ) / 1000

/-- Decimal digit character for d in 0..9 (other inputs give the digit 0;
they never occur). -/
def digitChar10 (d : ℕ) : Char :=
  match d with
  | 0 => '0' | 1 => '1' | 2 => '2' | 3 => '3' | 4 => '4'
  | 5 => '5' | 6 => '6' | 7 => '7' | 8 => '8' | _ => '9'

/-- Decimal digit list of a natural number, most significant first; the
fuel argument makes the recursion structural (fuel m suffices for m). -/
def natDigitsAux : ℕ → ℕ → List Char
  | 0, m => [digitChar10 m]
  | fuel + 1, m =>
    if m < 10 then [digitChar10 m]
    else natDigitsAux fuel (m / 10) ++ [digitChar10 (m % 10)]

/-- Decimal digit list of a natural number, most significant first. -/
def natDigits (m : ℕ) : List Char := natDigitsAux m m

/-- Decimal string of a natural number. -/
def natToStr (m : ℕ) : String := String.mk (natDigits m)

/-- Decimal string of an integer. -/
def intToStr (n : ℤ) : String :=
  if n < 0 then "-" ++ natToStr n.natAbs else natToStr n.natAbs

/-- Modelling the Python format "%i" applied to a float. -/
def fmtI (q : ℚ) : String := intToStr (pyTrunc q)

/-- Left pad with zero digits to width 3. -/
def pad3 (m : ℕ) : String :=
  if m < 10 then "00" ++ natToStr m
  else if m < 100 then "0" ++ natToStr m
  else natToStr m

/-- Left pad with zero digits to width 2. -/
def pad2 (m : ℕ) : String :=
  if m < 10 then "0" ++ natToStr m else natToStr m

/-- Modelling the Python format "%.3f" (exact on the rationals that arise
here, whose scaled value is an integer). -/
def fmt3 (q : ℚ) : String :=
  let n := roundHalfEven (q * 1000)
  (if n < 0 then "-" else "") ++ natToStr (n.natAbs / 1000) ++ "." ++ pad3 (n.natAbs % 1000)

/-- Modelling the Python format "%.2f". -/
def fmt2 (q : ℚ) : String :=
  let n := roundHalfEven (q * 100)
  (if n < 0 then "-" else "") ++ natToStr (n.natAbs / 100) ++ "." ++ pad2 (n.natAbs % 100)

/-- Modelling the empty string left-justified to width n, the source's
padding idiom: a run of n spaces. -/
def ljustEmpty (n : ℕ) : String := String.mk (List.replicate n ' ')

/-- Header signature string a pole-figure block starts with, exactly as
built in get_meta_data (source lines 69 to 73): empty strings left-justified
to widths 1, 7, 3, 4, 1, 3, 4 interleave the plane name, the step strings,
the two truncated sample counts and the two zero fields. -/
def headerSignature (plane_str : String) (step_azimuthal_str : String)
    (step_azimuthal : ℚ) (step_polar_str : String) (step_polar : ℚ)
    (polar_max : ℚ) : String :=
  ljustEmpty 1 ++ plane_str ++ ljustEmpty 7 ++ step_azimuthal_str ++ ljustEmpty 3
    ++ intToStr (pyTrunc (360 / step_azimuthal)) ++ ljustEmpty 4 ++ intToStr 0
    ++ ljustEmpty 1 ++ step_polar_str ++ ljustEmpty 3
    ++ intToStr (pyTrunc (polar_max / step_polar)) ++ ljustEmpty 4 ++ intToStr 0

/-- Inner loop of the scan in get_meta_data (source lines 78 to 81): walk the
plane signatures in order and, at the first one equal to the rstripped line,
overwrite that plane's offset cell with ln and stop (the break). -/
def updateFirst : List String → List (Option ℕ) → String → ℕ → List (Option ℕ)
  | [], offs, _, _ => offs
  | _ :: _, [], _, _ => []
  | s :: ss, o :: os, line, ln =>
    if s = pyRstrip line then some ln :: os
    else o :: updateFirst ss os line ln

/-- Outer loop of the scan in get_meta_data (source lines 75 to 81): walk the
lines, counting from 1, and update the offset cells; the cell value written
for the line with 1-based number c is c - 1, here the 0-based index. -/
def scanLoop (sigs : List String) : List String → ℕ → List (Option ℕ) → List (Option ℕ)
  | [], _, offs => offs
  | line :: rest, c, offs => scanLoop sigs rest (c + 1) (updateFirst sigs offs line c)

/-- Embedding of get_meta_data: rows is the data frame index (the clipped
plane-name list), and the result is the offset column for the requested
correction mode; an unset cell (NaN) is none. Building the signatures
indexes row i for every i below n_pfs, so a positional IndexError is raised
when n_pfs exceeds the row count. The scan itself never fails: an unmatched
signature silently leaves its offset cell none. -/
def get_meta_data (n_pfs : ℕ) (rows : List String) (content : List String)
    (step_polar_str step_azimuthal_str : String) (step_polar step_azimuthal : ℚ)
    (corr_data : Bool) : Except PyErr (List (Option ℕ)) :=
  let polar_max : ℚ := if corr_data then 90 else 80
  if n_pfs ≤ rows.length then
    let sigs := (rows.take n_pfs).map
      (fun p => headerSignature p step_azimuthal_str step_azimuthal
        step_polar_str step_polar polar_max)
    .ok (scanLoop sigs content 0 (List.replicate n_pfs none)
          ++ List.replicate (rows.length - n_pfs) none)
  else .error .indexError

/-- Numpy 1-D slice assignment row[start : start + vals.length] = vals with
the slice clipped to the row and numpy broadcasting: the value list must
have the clipped width, or length one (broadcast fill); any other mismatch
is a broadcast ValueError. -/
def npSetSlice (row : List ℚ) (start : ℕ) (vals : List ℚ) : Except PyErr (List ℚ) :=
  let lo := min start row.length
  let hi := min (start + vals.length) row.length
  let width := hi - lo
  if vals.length = width then
    .ok (row.take lo ++ vals ++ row.drop (lo + width))
  else if vals.length = 1 then
    .ok (row.take lo ++ List.replicate width (vals.headD 0) ++ row.drop hi)
  else .error .valueError

/-- Token list of a line parsed as rounded floats, modelling the list
comprehension in get_intensities line 124. -/
def parseTokens : List String → Except PyErr (List ℚ)
  | [] => .ok []
  | t :: ts =>
    match parseFloatQ t with
    | none => .error .valueError
    | some q =>
      match parseTokens ts with
      | .ok qs => .ok (pyRound3 q :: qs)
      | .error e => .error e

/-- Inner 8-line loop of get_intensities (source lines 122 to 126): read the
line at idx, parse and round its tokens, write them into the current polar
ring at position i_pf, advance i_pf by the token count. The ring is none
when the polar index i_pa is out of range; the write then raises the
IndexError numpy gives for an out-of-bounds index. -/
def fillRing (content : List String) : ℕ → ℕ → ℕ → Option (List ℚ) →
    Except PyErr (Option (List ℚ))
  | 0, _, _, row? => .ok row?
  | rem + 1, idx, i_pf, row? =>
    match content.get? idx with
    | none => .error .indexError
    | some line =>
      match parseTokens (pySplit line) with
      | .error e => .error e
      | .ok ints =>
        match row? with
        | none => .error .indexError
        | some row =>
          match npSetSlice row i_pf ints with
          | .error e => .error e
          | .ok row2 => fillRing content rem (idx + 1) (i_pf + ints.length) (some row2)

/-- Middle loop of get_intensities (source lines 120 to 127): walk b blocks
of 8 lines starting at line j, filling ring i_pa from each. -/
def extractLoop (content : List String) : ℕ → ℕ → ℕ → List (List ℚ) →
    Except PyErr (List (List ℚ))
  | 0, _, _, grid => .ok grid
  | b + 1, j, i_pa, grid =>
    match fillRing content 8 j 0 (grid.get? i_pa) with
    | .error e => .error e
    | .ok none => .error .indexError
    | .ok (some newRow) => extractLoop content b (j + 8) (i_pa + 1) (grid.set i_pa newRow)

/-- Value of int(step * polar_max / step_polar) from get_intensities
line 112, with step = 8. -/
def stopIncrement (step_polar : ℚ) (corr_data : Bool) : ℤ :=
  pyTrunc (8 * (if corr_data then (90 : ℚ) else 80) / step_polar)

/-- Number of iterations of the Python loop for j in
range(start, start + stop_increment, 8). -/
def nblocks (step_polar : ℚ) (corr_data : Bool) : ℕ :=
  let si := stopIncrement step_polar corr_data
  if si ≤ 0 then 0 else (si.toNat + 7) / 8

/-- Polar dimension int(polar_max / step_polar) of the intensity array. -/
def ringsDim (step_polar : ℚ) (corr_data : Bool) : ℤ :=
  pyTrunc ((if corr_data then (90 : ℚ) else 80) / step_polar)

/-- Azimuthal dimension int(360 / step_azimuthal) of the intensity array. -/
def colsDim (step_azimuthal : ℚ) : ℤ := pyTrunc (360 / step_azimuthal)

/-- Outer plane loop of get_intensities (source lines 116 to 127): read the
offset cell of plane i (a positional IndexError when i is past the offset
column, and the TypeError range() raises on the float NaN + 1 when the cell
was never set), then walk the blocks from offset + 1. -/
def planeLoop (content : List String) (offsets : List (Option ℕ))
    (rings cols nb : ℕ) : ℕ → ℕ → Except PyErr (List (List (List ℚ)))
  | 0, _ => .ok []
  | k + 1, i =>
    match offsets.get? i with
    | none => .error .indexError
    | some none => .error .typeError
    | some (some off) =>
      match extractLoop content nb (off + 1) 0
          (List.replicate rings (List.replicate cols 0)) with
      | .error e => .error e
      | .ok g =>
        match planeLoop content offsets rings cols nb k (i + 1) with
        | .error e => .error e
        | .ok gs => .ok (g :: gs)

/-- Embedding of get_intensities: allocate the zero-filled intensity array
(np.zeros raises ValueError on a negative dimension) and fill it plane by
plane, ring by ring. -/
def get_intensities (n_pfs : ℕ) (offsets : List (Option ℕ)) (content : List String)
    (step_polar step_azimuthal : ℚ) (corr_data : Bool) :
    Except PyErr (List (List (List ℚ))) :=
  let rz := ringsDim step_polar corr_data
  let cz := colsDim step_azimuthal
  if rz < 0 ∨ cz < 0 then .error .valueError
  else planeLoop content offsets rz.toNat cz.toNat (nblocks step_polar corr_data) n_pfs 0

/-- Polar dimension of a pole-figure intensity array, pfs_ints.shape[1]. -/
def gridShape1 (pfs_ints : List (List (List ℚ))) : ℕ := (pfs_ints.headD []).length

/-- Azimuthal dimension of a pole-figure intensity array, pfs_ints.shape[2]. -/
def gridShape2 (pfs_ints : List (List (List ℚ))) : ℕ :=
  ((pfs_ints.headD []).headD []).length

/-- Output row in the np.savetxt format list percent-i, percent-i,
percent-.3f, space separated. -/
def fmtRow (p a v : ℚ) : String := fmtI p ++ " " ++ fmtI a ++ " " ++ fmt3 v

/-- Embedding of write_intensities_to_file: build the flattened polar and
azimuthal coordinate columns (row-major flatten of the two
polar_max-by-azimuthal_max arrays of source lines 153 to 163), pair them
with each plane's flattened intensities and format one file per plane. The
result is the list of written files, each a name with its lines. -/
def write_intensities_to_file (pfs_ints : List (List (List ℚ)))
    (rows : List String) (infile : String) (step_polar step_azimuthal : ℚ)
    (corr_data : Bool) : List (String × List String) :=
  let polar_max := gridShape1 pfs_ints
  let azimuthal_max := gridShape2 pfs_ints
  let polar_flat :=
    ((List.range polar_max).map
      (fun (j : ℕ) => List.replicate azimuthal_max ((j : ℚ) * step_polar))).flatten
  let azimuthal_flat :=
    ((List.range polar_max).map
      (fun (_ : ℕ) => (List.range azimuthal_max).map
        (fun (l : ℕ) => (l : ℚ) * step_azimuthal))).flatten
  (pfs_ints.zip rows).map (fun pr =>
    let lines := ((polar_flat.zip azimuthal_flat).zip pr.1.flatten).map
      (fun t => fmtRow t.1.1 t.1.2 t.2)
    let outfile := infile.dropRight 4 ++ "_pf" ++ pr.2
      ++ (if corr_data then "_corr.dat" else "_uncorr.dat")
    (outfile, lines))

/-- Fixed plane catalog of the script, source line 198. -/
def planes : List String := ["111", "200", "220", "311", "222", "400"]

/-- Correction-marker sniff of source line 186: the first token of the third
line starts with LMAX. -/
def sniffCorr (content : List String) : Except PyErr Bool :=
  match content.get? 2 with
  | none => .error .indexError
  | some line =>
    match (pySplit line).head? with
    | none => .error .indexError
    | some t => .ok (t.take 4 == "LMAX")

/-- Angular-step sniff of source lines 192 to 193: second and third token of
the fourth line, parsed as floats. -/
def sniffSteps (content : List String) : Except PyErr (ℚ × ℚ) :=
  match content.get? 3 with
  | none => .error .indexError
  | some line =>
    let toks := pySplit line
    match toks.get? 1 with
    | none => .error .indexError
    | some t1 =>
      match parseFloatQ t1 with
      | none => .error .valueError
      | some sp =>
        match toks.get? 2 with
        | none => .error .indexError
        | some t2 =>
          match parseFloatQ t2 with
          | none => .error .valueError
          | some sa => .ok (sp, sa)

/-- How a run ends: normal completion, a clean sys.exit with the given
status (sys.exit with no argument prints no traceback and exits 0), or an
uncaught exception (traceback, nonzero status). -/
inductive Outcome where
  | finished
  | exited (code : ℕ)
  | crashed (e : PyErr)
deriving DecidableEq, Repr

/-- Observable result of a run: the output files written so far (in order),
and how the run ended. -/
structure RunOut where
  files : List (String × List String)
  outcome : Outcome
deriving DecidableEq, Repr

/-- Embedding of the module-level flow (source lines 176 to 218): extension
check with sys.exit on failure, sniff, uncorrected pass (locate, extract,
write), then the corrected pass when the marker is set. content is the line
list of the file at infile. Files written by an earlier pass stay written
when a later stage crashes. -/
def run_program (infile : String) (content : List String) (n_pfs : ℕ) : RunOut :=
  if ¬(infile.endsWith ".RES" || infile.endsWith ".res") then
    { files := [], outcome := .exited 0 }
  else
    match sniffCorr content with
    | .error e => { files := [], outcome := .crashed e }
    | .ok corr =>
      match sniffSteps content with
      | .error e => { files := [], outcome := .crashed e }
      | .ok (step_polar, step_azimuthal) =>
        let step_polar_str := fmt2 step_polar
        let step_azimuthal_str := fmt2 step_azimuthal
        let rows := planes.take n_pfs
        match get_meta_data n_pfs rows content step_polar_str step_azimuthal_str
            step_polar step_azimuthal false with
        | .error e => { files := [], outcome := .crashed e }
        | .ok offsU =>
          match get_intensities n_pfs offsU content step_polar step_azimuthal false with
          | .error e => { files := [], outcome := .crashed e }
          | .ok gU =>
            let filesU := write_intensities_to_file gU rows infile
              step_polar step_azimuthal false
            if corr then
              match get_meta_data n_pfs rows content step_polar_str
                  step_azimuthal_str step_polar step_azimuthal true with
              | .error e => { files := filesU, outcome := .crashed e }
              | .ok offsC =>
                match get_intensities n_pfs offsC content step_polar step_azimuthal true with
                | .error e => { files := filesU, outcome := .crashed e }
                | .ok gC =>
                  { files := filesU ++ write_intensities_to_file gC rows infile
                      step_polar step_azimuthal true,
                    outcome := .finished }
            else { files := filesU, outcome := .finished }

/-- Signature string as the specification words it: the plane name, the
2-decimal azimuthal step, the integer azimuthal sample count 360 divided by
the azimuthal step, a zero field, the 2-decimal polar step, the integer
polar sample count polar_max divided by the polar step (polar_max 80
uncorrected, 90 corrected) and a trailing zero field, separated by literal
whitespace runs of widths 1, 7, 3, 4, 1, 3, 4, leading width first. -/
def specHeaderSignature (plane_str : String) (step_polar step_azimuthal : ℚ)
    (corr_data : Bool) : String :=
  " " ++ plane_str ++ "       " ++ fmt2 step_azimuthal ++ "   "
    ++ intToStr (pyTrunc (360 / step_azimuthal)) ++ "    " ++ "0"
    ++ " " ++ fmt2 step_polar ++ "   "
    ++ intToStr (pyTrunc ((if corr_data then (90 : ℚ) else 80) / step_polar))
    ++ "    " ++ "0"

/-- Zero-based index of the last line whose rstripped text equals s. -/
def lastMatch (s : String) : List String → Option ℕ
  | [] => none
  | line :: rest =>
    match lastMatch s rest with
    | some k => some (k + 1)
    | none => if s = pyRstrip line then some 0 else none

/-- Replace the segment of row of length vals.length starting at i by vals. -/
def spliceAt (row : List ℚ) (i : ℕ) (vals : List ℚ) : List ℚ :=
  row.take i ++ vals ++ row.drop (i + vals.length)

/-- Concatenated parsed and rounded tokens of rem consecutive lines
starting at line idx: the total token content of a ring's block. -/
def blockTokens (content : List String) : ℕ → ℕ → Except PyErr (List ℚ)
  | 0, _ => .ok []
  | rem + 1, idx =>
    match content.get? idx with
    | none => .error .indexError
    | some line =>
      match parseTokens (pySplit line) with
      | .error e => .error e
      | .ok ints =>
        match blockTokens content rem (idx + 1) with
        | .ok more => .ok (ints ++ more)
        | .error e => .error e

/-- Reader for one output table row: three whitespace-separated floats. -/
def parseRow (s : String) : Option (ℚ × ℚ × ℚ) :=
  match (pySplit s).map parseFloatQ with
  | [some p, some a, some v] => some (p, a, v)
  | _ => none

/-- Uncorrected header signature for plane 111 with steps 10 and 360. -/
def sigU10 : String := headerSignature "111" "360.00" 360 "10.00" 10 80

/-- Input with no correction marker and no header line matching plane 111:
the locator leaves the offset unset and raises nothing. -/
def exNoHeader : List String := ["x", "x", "NONE", "q 10.00 360.00", "nothing"]

/-- Input whose ring blocks are short: ring 0 of plane 111 holds two tokens
where int(360/120) = 3 cells are expected (steps 40 and 120, uncorrected,
offset 0: two rings of 8 lines each, lines 1 to 16). -/
def exShortBlock : List String := ["h", "1.5 2.25"] ++ List.replicate 15 ""

/-- Input in which the plane-111 uncorrected header line for steps 10 and
360 occurs twice, at 0-based lines 2 and 5 (the second with trailing
whitespace, which rstrip removes before comparing). -/
def exDoubleHeader : List String :=
  ["a", "b", sigU10, "c", "d", sigU10 ++ "  ", "e"]

/-- Input with the correction marker set, a valid uncorrected pass for one
plane (offset 4, 8 rings of 8 empty lines) and no corrected header line. -/
def exCorrMissing : List String :=
  ["x", "x", "LMAX", "q 10.00 360.00", sigU10] ++ List.replicate 64 ""

/-- Minimal input whose sniff succeeds: no correction marker, steps 10
and 360. -/
def exStepsOnly : List String := ["x", "x", "NONE", "q 10.00 360.00"]

/-- Empty-line input used to run the extractor at steps 5 and 5. -/
def exBlank130 : List String := List.replicate 130 ""

set_option maxRecDepth 40000

theorem sanity_fmt2 : fmt2 5 = "5.00" := by with_unfolding_all decide

theorem sanity_fmt3 : fmt3 (5 / 2) = "2.500" := by with_unfolding_all decide

theorem sanity_parse : parseFloatQ "2.500" = some (5 / 2) := by with_unfolding_all decide

theorem sanity_signature :
    headerSignature "111" "360.00" 360 "10.00" 10 80
      = " 111       360.00   1    0 10.00   8    0" := by
  with_unfolding_all decide

/-- Truncation of a nonnegative rational is nonnegative. -/
theorem pyTrunc_nonneg (q : ℚ) (h : 0 ≤ q) : 0 ≤ pyTrunc q := by
  unfold pyTrunc
  rw [if_neg (not_lt.2 h)]
  exact Int.floor_nonneg.2 h

/-- With positive steps the dimension checks of get_intensities pass, and a
first offset cell that was never set (NaN) makes the very first plane
iteration raise the TypeError of range() on a float bound. -/
theorem get_intensities_unset_first (n : ℕ) (offsets : List (Option ℕ))
    (content : List String) (sp sa : ℚ) (cd : Bool)
    (hsp : 0 < sp) (hsa : 0 < sa) (hn : 0 < n)
    (hoff : offsets.head? = some none) :
    get_intensities n offsets content sp sa cd = .error .typeError := by
  have hpm : (0 : ℚ) ≤ (if cd then (90 : ℚ) else 80) := by cases cd <;> norm_num
  have hr : 0 ≤ ringsDim sp cd := pyTrunc_nonneg _ (div_nonneg hpm hsp.le)
  have hc : 0 ≤ colsDim sa := pyTrunc_nonneg _ (div_nonneg (by norm_num) hsa.le)
  unfold get_intensities
  rw [if_neg (by push_neg; exact ⟨hr, hc⟩)]
  obtain ⟨k, rfl⟩ := Nat.exists_eq_succ_of_ne_zero hn.ne'
  cases offsets with
  | nil => cases hoff
  | cons a t =>
    have ha : a = none := by simpa using hoff
    subst ha
    rfl

/-- A locator call whose plane count fits the row count always succeeds. -/
theorem get_meta_data_isOk (n : ℕ) (rows content : List String)
    (spStr saStr : String) (sp sa : ℚ) (cd : Bool) (h : n ≤ rows.length) :
    (get_meta_data n rows content spStr saStr sp sa cd).isOk = true := by
  unfold get_meta_data
  rw [if_pos h]
  rfl

/-- A locator call whose plane count exceeds the row count raises the
positional IndexError of .iloc. -/
theorem get_meta_data_overflow (n : ℕ) (rows content : List String)
    (spStr saStr : String) (sp sa : ℚ) (cd : Bool) (h : rows.length < n) :
    get_meta_data n rows content spStr saStr sp sa cd = .error .indexError := by
  unfold get_meta_data
  rw [if_neg (not_le.2 h)]

/-- C1, amended: when a plane's synthesized signature matches no line, the
Header Locator does not raise any error (no HeaderNotFound exists in the
program): it returns normally with that offset cell still unset, and the
run does proceed to grid extraction, which then crashes with the TypeError
of range() applied to the float NaN + 1. -/
theorem c1_locator_silent_extractor_typeerror (n m : ℕ) (rows : List String)
    (content : List String) (spStr saStr : String) (sp sa : ℚ) (cd : Bool)
    (offsets : List (Option ℕ))
    (hrows : n ≤ rows.length) (hsp : 0 < sp) (hsa : 0 < sa) (hm : 0 < m)
    (hoff : offsets.head? = some none) :
    (get_meta_data n rows content spStr saStr sp sa cd).isOk = true ∧
    get_intensities m offsets content sp sa cd = .error .typeError :=
  ⟨get_meta_data_isOk n rows content spStr saStr sp sa cd hrows,
   get_intensities_unset_first m offsets content sp sa cd hsp hsa hm hoff⟩

/-- Witness for c1_locator_silent_extractor_typeerror on a concrete file
with no matching header line for plane 111. -/
theorem c1_locator_silent_extractor_typeerror_witness :
    (get_meta_data 1 ["111"] exNoHeader "10.00" "360.00" 10 360 false).isOk = true ∧
    get_intensities 1 [none] exNoHeader 10 360 false = .error .typeError :=
  c1_locator_silent_extractor_typeerror 1 1 ["111"] exNoHeader "10.00" "360.00"
    10 360 false [none] (by norm_num) (by norm_num) (by norm_num) (by norm_num) rfl

/-- C1, counterexample: on a file in which the plane-111 signature is never
matched, the locator returns an unset offset without error and the whole
run proceeds into grid extraction and dies with a TypeError, not with any
HeaderNotFound diagnostic. -/
theorem c1_counterexample :
    get_meta_data 1 ["111"] exNoHeader "10.00" "360.00" 10 360 false = .ok [none] ∧
    run_program "a.res" exNoHeader 1
      = { files := [], outcome := .crashed .typeError } :=
  ⟨by with_unfolding_all decide, by with_unfolding_all decide⟩

/-- C8, amended: on any input path ending in neither .RES nor .res, the
program prints its message and calls sys.exit() with no argument, which
terminates the process cleanly with exit status 0 (not nonzero), writing
no output files, regardless of file content and plane count. -/
theorem c8_bad_extension_exits_zero (infile : String) (content : List String)
    (n : ℕ) (h : (infile.endsWith ".RES" || infile.endsWith ".res") = false) :
    run_program infile content n = { files := [], outcome := .exited 0 } := by
  unfold run_program
  rw [if_pos]
  rw [h]
  exact Bool.false_ne_true

/-- Witness for c8_bad_extension_exits_zero at the spec's own negative
scenario, the input name data.txt. -/
theorem c8_bad_extension_exits_zero_witness :
    run_program "data.txt" [] 1 = { files := [], outcome := .exited 0 } :=
  c8_bad_extension_exits_zero "data.txt" [] 1 (by with_unfolding_all decide)

/-- C8, counterexample: for the input name data.txt the run writes no files
and terminates via sys.exit() with exit status 0, contradicting the claimed
nonzero termination status. -/
theorem c8_counterexample :
    run_program "data.txt" [] 1 = { files := [], outcome := .exited 0 } := by
  with_unfolding_all decide

/-- C9, amended: a requested pole-figure count above 6 is not rejected
up front: planes[:n_pfs] silently clips to the 6-plane catalog and the
signature-building loop then indexes row 6 out of bounds, so the run dies
with a positional IndexError (no PlaneCountOutOfRange diagnostic exists in
the program); no output file is written. -/
theorem c9_count_overflow_indexerror (infile : String) (content : List String)
    (n : ℕ) (b : Bool) (sp sa : ℚ)
    (hext : (infile.endsWith ".RES" || infile.endsWith ".res") = true)
    (hc : sniffCorr content = .ok b)
    (hs : sniffSteps content = .ok (sp, sa))
    (hn : 6 < n) :
    run_program infile content n = { files := [], outcome := .crashed .indexError } := by
  have hlen : (planes.take n).length < n := by
    have h6 : (planes.take n).length ≤ 6 := by
      rw [List.length_take]
      exact le_trans (min_le_right n 6) (by norm_num [planes])
    omega
  unfold run_program
  rw [if_neg (by rw [hext]; exact fun hcon => hcon rfl)]
  simp only [hc, hs,
    get_meta_data_overflow n (planes.take n) content (fmt2 sp) (fmt2 sa) sp sa false hlen]

/-- Witness for c9_count_overflow_indexerror at plane count 7. -/
theorem c9_count_overflow_indexerror_witness :
    run_program "a.res" exStepsOnly 7 = { files := [], outcome := .crashed .indexError } :=
  c9_count_overflow_indexerror "a.res" exStepsOnly 7 false 10 360
    (by with_unfolding_all decide) (by with_unfolding_all decide)
    (by with_unfolding_all decide) (by norm_num)

/-- C9, counterexample: with a sniffable file and requested count 7 the run
crashes with an IndexError, an unrelated positional indexing error; there
is no PlaneCountOutOfRange diagnostic. -/
theorem c9_counterexample :
    run_program "a.res" exStepsOnly 7
      = { files := [], outcome := .crashed .indexError } := by
  with_unfolding_all decide

/-- Single-signature step of the scan: with one plane row, the offset cell
is overwritten exactly when the signature equals the rstripped line. -/
theorem updateFirst_single (s : String) (o : Option ℕ) (line : String) (c : ℕ) :
    updateFirst [s] [o] line c
      = if s = pyRstrip line then [some c] else [o] := by
  unfold updateFirst
  split <;> rfl

/-- Single-signature characterization of the scan loop: the resulting cell
holds c plus the index of the last matching line, or keeps its incoming
value when no line matches. Each later match overwrites the cell: the break
in the source only leaves the inner loop over planes, it does not stop
future matches for the same plane. -/
theorem scanLoop_single (s : String) (content : List String) : ∀ (c : ℕ) (o : Option ℕ),
    scanLoop [s] content c [o] =
      [match lastMatch s content with
       | some k => some (c + k)
       | none => o] := by
  induction content with
  | nil => intro c o; rfl
  | cons line rest ih =>
    intro c o
    show scanLoop [s] rest (c + 1) (updateFirst [s] [o] line c) = _
    rw [updateFirst_single,
      show (if s = pyRstrip line then [some c] else [o])
          = [if s = pyRstrip line then some c else o] from by split <;> rfl,
      ih]
    have hunfold : lastMatch s (line :: rest)
        = match lastMatch s rest with
          | some k => some (k + 1)
          | none => if s = pyRstrip line then some 0 else none := rfl
    rcases hrest : lastMatch s rest with _ | k
    · by_cases hmatch : s = pyRstrip line
      · rw [hunfold, hrest, if_pos hmatch]
        simp [hmatch]
      · rw [hunfold, hrest, if_neg hmatch]
        simp [hmatch]
    · rw [hunfold, hrest]
      show [some (c + 1 + k)] = [some (c + (k + 1))]
      have harith : c + 1 + k = c + (k + 1) := by omega
      rw [harith]

/-- C5, amended: for a single requested plane the Header Locator records
the 0-based index (that is, 1-based line number minus 1) of the LAST line
whose rstripped text equals the synthesized signature, not the first: an
offset recorded earlier is overwritten by any later match, because the
break in the scan only skips the remaining planes for the current line. -/
theorem c5_last_occurrence_wins (plane : String) (content : List String)
    (spStr saStr : String) (sp sa : ℚ) (cd : Bool) :
    get_meta_data 1 [plane] content spStr saStr sp sa cd =
      .ok [lastMatch
        (headerSignature plane saStr sa spStr sp (if cd then 90 else 80)) content] := by
  unfold get_meta_data
  rw [if_pos (by norm_num)]
  simp only [List.take, List.map, List.replicate, List.length_cons, List.length_nil]
  rw [scanLoop_single]
  cases lastMatch (headerSignature plane saStr sa spStr sp (if cd then 90 else 80)) content <;>
    simp

/-- C5, counterexample: in exDoubleHeader the plane-111 signature matches
lines 2 and 5 (and no earlier line); the recorded offset is 5, the last
match, not 2 as the claim states. -/
theorem c5_counterexample :
    get_meta_data 1 ["111"] exDoubleHeader "10.00" "360.00" 10 360 false
      = .ok [some 5] ∧
    pyRstrip (exDoubleHeader.getD 2 "") = sigU10 ∧
    pyRstrip (exDoubleHeader.getD 5 "") = sigU10 ∧
    pyRstrip (exDoubleHeader.getD 0 "") ≠ sigU10 ∧
    pyRstrip (exDoubleHeader.getD 1 "") ≠ sigU10 ∧
    (5 : ℕ) ≠ 2 := by
  refine ⟨?_, ?_, ?_, ?_, ?_, ?_⟩ <;> with_unfolding_all decide

theorem ljustEmpty_one : ljustEmpty 1 = " " := by with_unfolding_all decide

theorem ljustEmpty_three : ljustEmpty 3 = "   " := by with_unfolding_all decide

theorem ljustEmpty_four : ljustEmpty 4 = "    " := by with_unfolding_all decide

theorem ljustEmpty_seven : ljustEmpty 7 = "       " := by with_unfolding_all decide

theorem intToStr_zero : intToStr 0 = "0" := by with_unfolding_all decide

/-- C4: the synthesized signature, with both step strings produced by the
2-decimal formatting the module applies, is exactly the fixed-column string
the spec describes: plane name, 2-decimal azimuthal step, integer azimuthal
count 360 over the azimuthal step, zero field, 2-decimal polar step,
integer polar count polar_max over the polar step with polar_max 80
uncorrected and 90 corrected, trailing zero field, separated by whitespace
runs of widths 1, 7, 3, 4, 1, 3, 4, leading run first. -/
theorem c4_signature_format (plane_str : String) (sp sa : ℚ) (cd : Bool) :
    headerSignature plane_str (fmt2 sa) sa (fmt2 sp) sp (if cd then 90 else 80)
      = specHeaderSignature plane_str sp sa cd := by
  unfold headerSignature specHeaderSignature
  rw [ljustEmpty_one, ljustEmpty_three, ljustEmpty_four, ljustEmpty_seven, intToStr_zero]

/-- Numpy slice assignment never changes the row length. -/
theorem npSetSlice_ok_length (row : List ℚ) (start : ℕ) (vals : List ℚ) (r : List ℚ)
    (h : npSetSlice row start vals = .ok r) : r.length = row.length := by
  simp only [npSetSlice] at h
  split_ifs at h with h1 h2
  · cases h
    have hlo : min start row.length ≤ row.length := min_le_right _ _
    have hhi : min (start + vals.length) row.length ≤ row.length := min_le_right _ _
    have hmono : min start row.length ≤ min (start + vals.length) row.length :=
      min_le_min (by omega) le_rfl
    simp only [List.length_append, List.length_take, List.length_drop]
    omega
  · cases h
    have hlo : min start row.length ≤ row.length := min_le_right _ _
    have hhi : min (start + vals.length) row.length ≤ row.length := min_le_right _ _
    have hmono : min start row.length ≤ min (start + vals.length) row.length :=
      min_le_min (by omega) le_rfl
    simp only [List.length_append, List.length_take, List.length_replicate,
      List.length_drop]
    omega

/-- An 8-line ring fill that starts from a live ring returns a live ring of
the same length. -/
theorem fillRing_ok_some (content : List String) : ∀ (rem idx i_pf : ℕ)
    (row : List ℚ) (out : Option (List ℚ)),
    fillRing content rem idx i_pf (some row) = .ok out →
    ∃ r2, out = some r2 ∧ r2.length = row.length := by
  intro rem
  induction rem with
  | zero =>
    intro idx i_pf row out h
    cases h
    exact ⟨row, rfl, rfl⟩
  | succ n ih =>
    intro idx i_pf row out h
    cases hline : content.get? idx with
    | none => simp only [fillRing, hline] at h; cases h
    | some line =>
      simp only [fillRing, hline] at h
      cases hp : parseTokens (pySplit line) with
      | error e => simp only [hp] at h; cases h
      | ok ints =>
        simp only [hp] at h
        cases hs : npSetSlice row i_pf ints with
        | error e => simp only [hs] at h; cases h
        | ok row2 =>
          simp only [hs] at h
          obtain ⟨r2, hout, hlen⟩ := ih (idx + 1) (i_pf + ints.length) row2 out
            (by first | exact h | exact h.symm)
          exact ⟨r2, hout, hlen.trans (npSetSlice_ok_length row i_pf ints row2 hs)⟩

/-- A ring fill on a dead ring (out-of-range polar index) never succeeds:
the first write raises IndexError. -/
theorem fillRing_none_fail (content : List String) (n idx i_pf : ℕ)
    (out : Option (List ℚ)) :
    fillRing content (n + 1) idx i_pf none ≠ .ok out := by
  intro h
  cases hline : content.get? idx with
  | none => simp only [fillRing, hline] at h; cases h
  | some line =>
    simp only [fillRing, hline] at h
    cases hp : parseTokens (pySplit line) with
    | error e => simp only [hp] at h; cases h
    | ok ints => simp only [hp] at h; cases h

/-- The block walk preserves the grid height and the ring widths. -/
theorem extractLoop_ok_shape (content : List String) (cols : ℕ) : ∀ (b j i_pa : ℕ)
    (grid g2 : List (List ℚ)),
    (∀ r ∈ grid, r.length = cols) →
    extractLoop content b j i_pa grid = .ok g2 →
    g2.length = grid.length ∧ ∀ r ∈ g2, r.length = cols := by
  intro b
  induction b with
  | zero =>
    intro j i_pa grid g2 hrows h
    cases h
    exact ⟨rfl, hrows⟩
  | succ n ih =>
    intro j i_pa grid g2 hrows h
    cases hfr : fillRing content 8 j 0 (grid.get? i_pa) with
    | error e => simp only [extractLoop, hfr] at h; cases h
    | ok o =>
      cases o with
      | none => simp only [extractLoop, hfr] at h; cases h
      | some newRow =>
        simp only [extractLoop, hfr] at h
        cases hrow : grid.get? i_pa with
        | none => exact absurd (hrow ▸ hfr) (fillRing_none_fail content 7 j 0 (some newRow))
        | some row =>
          rw [hrow] at hfr
          obtain ⟨r2, hr2, hlen⟩ := fillRing_ok_some content 8 j 0 row (some newRow) hfr
          cases hr2
          have hnew : newRow.length = cols :=
            hlen.trans (hrows row (List.get?_mem hrow))
          have hset : ∀ r ∈ grid.set i_pa newRow, r.length = cols := by
            intro r hr
            rcases List.mem_or_eq_of_mem_set hr with hmem | rfl
            · exact hrows r hmem
            · exact hnew
          obtain ⟨hl, hall⟩ := ih (j + 8) (i_pa + 1) (grid.set i_pa newRow) g2 hset
            (by first | exact h | exact h.symm)
          exact ⟨hl.trans (List.length_set grid i_pa newRow ▸ rfl), hall⟩

/-- The plane loop returns one grid per remaining plane, each of the
allocated shape. -/
theorem planeLoop_ok_shape (content : List String) (offsets : List (Option ℕ))
    (rings cols nb : ℕ) : ∀ (k i : ℕ) (gs : List (List (List ℚ))),
    planeLoop content offsets rings cols nb k i = .ok gs →
    gs.length = k ∧ ∀ p ∈ gs, p.length = rings ∧ ∀ r ∈ p, r.length = cols := by
  intro k
  induction k with
  | zero =>
    intro i gs h
    cases h
    simp
  | succ n ih =>
    intro i gs h
    cases hoff : offsets.get? i with
    | none => simp only [planeLoop, hoff] at h; cases h
    | some o =>
      cases o with
      | none => simp only [planeLoop, hoff] at h; cases h
      | some off =>
        simp only [planeLoop, hoff] at h
        cases hex : extractLoop content nb (off + 1) 0
            (List.replicate rings (List.replicate cols 0)) with
        | error e => simp only [hex] at h; cases h
        | ok g =>
          simp only [hex] at h
          cases hrec : planeLoop content offsets rings cols nb n (i + 1) with
          | error e => simp only [hrec] at h; cases h
          | ok gs2 =>
            simp only [hrec] at h
            have hgs : gs = g :: gs2 := by
              first
              | exact h
              | exact h.symm
              | exact Except.ok.inj h
              | exact Except.ok.inj h.symm
            subst hgs
            have hinit : ∀ r ∈ List.replicate rings (List.replicate cols (0 : ℚ)),
                r.length = cols := by
              intro r hr
              rw [List.eq_of_mem_replicate hr]
              exact List.length_replicate cols 0
            obtain ⟨hgl, hgr⟩ := extractLoop_ok_shape content cols nb (off + 1) 0 _ g hinit hex
            obtain ⟨hl2, hall2⟩ := ih (i + 1) gs2 hrec
            refine ⟨by simpa using hl2, ?_⟩
            intro p hp
            rcases List.mem_cons.1 hp with rfl | hmem
            · exact ⟨hgl.trans (List.length_replicate rings _), hgr⟩
            · exact hall2 p hmem

/-- The extractor returns one grid per plane, of shape
int(polar_max / step_polar) by int(360 / step_azimuthal). -/
theorem get_intensities_ok_shape (n : ℕ) (offsets : List (Option ℕ))
    (content : List String) (sp sa : ℚ) (cd : Bool) (g : List (List (List ℚ)))
    (h : get_intensities n offsets content sp sa cd = .ok g) :
    g.length = n ∧ ∀ p ∈ g, p.length = (ringsDim sp cd).toNat ∧
      ∀ r ∈ p, r.length = (colsDim sa).toNat := by
  rw [show get_intensities n offsets content sp sa cd
        = (if ringsDim sp cd < 0 ∨ colsDim sa < 0 then Except.error PyErr.valueError
           else planeLoop content offsets (ringsDim sp cd).toNat (colsDim sa).toNat
             (nblocks sp cd) n 0) from rfl] at h
  by_cases hneg : ringsDim sp cd < 0 ∨ colsDim sa < 0
  · rw [if_pos hneg] at h
    cases h
  · rw [if_neg hneg] at h
    exact planeLoop_ok_shape content offsets _ _ _ n 0 g h

/-- The ring fill reads only the rem lines starting at idx: two files that
agree there give identical results. -/
theorem fillRing_frame (c1 c2 : List String) : ∀ (rem idx i_pf : ℕ)
    (row? : Option (List ℚ)),
    (∀ x, idx ≤ x → x < idx + rem → c1.get? x = c2.get? x) →
    fillRing c1 rem idx i_pf row? = fillRing c2 rem idx i_pf row? := by
  intro rem
  induction rem with
  | zero => intro idx i_pf row? hag; rfl
  | succ n ih =>
    intro idx i_pf row? hag
    have hline : c1.get? idx = c2.get? idx := hag idx le_rfl (by omega)
    show (match c1.get? idx with
      | none => Except.error PyErr.indexError
      | some line =>
        match parseTokens (pySplit line) with
        | .error e => .error e
        | .ok ints =>
          match row? with
          | none => Except.error PyErr.indexError
          | some row =>
            match npSetSlice row i_pf ints with
            | .error e => .error e
            | .ok row2 => fillRing c1 n (idx + 1) (i_pf + ints.length) (some row2))
      = (match c2.get? idx with
      | none => Except.error PyErr.indexError
      | some line =>
        match parseTokens (pySplit line) with
        | .error e => .error e
        | .ok ints =>
          match row? with
          | none => Except.error PyErr.indexError
          | some row =>
            match npSetSlice row i_pf ints with
            | .error e => .error e
            | .ok row2 => fillRing c2 n (idx + 1) (i_pf + ints.length) (some row2))
    rw [hline]
    cases c2.get? idx with
    | none => rfl
    | some line =>
      dsimp only []
      cases parseTokens (pySplit line) with
      | error e => rfl
      | ok ints =>
        dsimp only []
        cases row? with
        | none => rfl
        | some row =>
          dsimp only []
          cases npSetSlice row i_pf ints with
          | error e => rfl
          | ok row2 =>
            dsimp only []
            exact ih (idx + 1) (i_pf + ints.length) (some row2)
              (fun x hx1 hx2 => hag x (by omega) (by omega))

/-- The block walk reads only the 8 times b lines starting at j. -/
theorem extractLoop_frame (c1 c2 : List String) : ∀ (b j i_pa : ℕ)
    (grid : List (List ℚ)),
    (∀ x, j ≤ x → x < j + 8 * b → c1.get? x = c2.get? x) →
    extractLoop c1 b j i_pa grid = extractLoop c2 b j i_pa grid := by
  intro b
  induction b with
  | zero => intro j i_pa grid hag; rfl
  | succ n ih =>
    intro j i_pa grid hag
    have hfr : fillRing c1 8 j 0 (grid.get? i_pa) = fillRing c2 8 j 0 (grid.get? i_pa) :=
      fillRing_frame c1 c2 8 j 0 (grid.get? i_pa)
        (fun x hx1 hx2 => hag x hx1 (by omega))
    show (match fillRing c1 8 j 0 (grid.get? i_pa) with
      | Except.error e => Except.error e
      | Except.ok none => Except.error PyErr.indexError
      | Except.ok (some newRow) => extractLoop c1 n (j + 8) (i_pa + 1) (grid.set i_pa newRow))
      = (match fillRing c2 8 j 0 (grid.get? i_pa) with
      | Except.error e => Except.error e
      | Except.ok none => Except.error PyErr.indexError
      | Except.ok (some newRow) => extractLoop c2 n (j + 8) (i_pa + 1) (grid.set i_pa newRow))
    rw [hfr]
    cases fillRing c2 8 j 0 (grid.get? i_pa) with
    | error e => rfl
    | ok o =>
      cases o with
      | none => rfl
      | some newRow =>
        exact ih (j + 8) (i_pa + 1) (grid.set i_pa newRow)
          (fun x hx1 hx2 => hag x (by omega) (by omega))

/-- The plane loop reads, per plane with a resolved offset, only the window
of 8 times nb lines starting at offset plus 1. -/
theorem planeLoop_frame (c1 c2 : List String) (offsets : List (Option ℕ))
    (rings cols nb : ℕ)
    (hag : ∀ i off, offsets.get? i = some (some off) →
      ∀ x, off + 1 ≤ x → x < off + 1 + 8 * nb → c1.get? x = c2.get? x) :
    ∀ (k i : ℕ),
    planeLoop c1 offsets rings cols nb k i = planeLoop c2 offsets rings cols nb k i := by
  intro k
  induction k with
  | zero => intro i; rfl
  | succ n ih =>
    intro i
    show (match offsets.get? i with
      | none => Except.error PyErr.indexError
      | some none => Except.error PyErr.typeError
      | some (some off) =>
        match extractLoop c1 nb (off + 1) 0
            (List.replicate rings (List.replicate cols 0)) with
        | Except.error e => Except.error e
        | Except.ok g =>
          match planeLoop c1 offsets rings cols nb n (i + 1) with
          | Except.error e => Except.error e
          | Except.ok gs => Except.ok (g :: gs))
      = (match offsets.get? i with
      | none => Except.error PyErr.indexError
      | some none => Except.error PyErr.typeError
      | some (some off) =>
        match extractLoop c2 nb (off + 1) 0
            (List.replicate rings (List.replicate cols 0)) with
        | Except.error e => Except.error e
        | Except.ok g =>
          match planeLoop c2 offsets rings cols nb n (i + 1) with
          | Except.error e => Except.error e
          | Except.ok gs => Except.ok (g :: gs))
    cases hoff : offsets.get? i with
    | none => rfl
    | some o =>
      cases o with
      | none => rfl
      | some off =>
        dsimp only []
        have hex : extractLoop c1 nb (off + 1) 0
              (List.replicate rings (List.replicate cols 0))
            = extractLoop c2 nb (off + 1) 0
              (List.replicate rings (List.replicate cols 0)) :=
          extractLoop_frame c1 c2 nb (off + 1) 0 _ (hag i off hoff)
        rw [hex, ih]

/-- The extractor reads, per plane with a resolved offset, only the lines
from offset plus 1 up to offset plus 8 times nblocks. -/
theorem get_intensities_frame (n : ℕ) (offsets : List (Option ℕ))
    (c1 c2 : List String) (sp sa : ℚ) (cd : Bool)
    (hag : ∀ i off, offsets.get? i = some (some off) →
      ∀ x, off + 1 ≤ x → x < off + 1 + 8 * nblocks sp cd → c1.get? x = c2.get? x) :
    get_intensities n offsets c1 sp sa cd = get_intensities n offsets c2 sp sa cd := by
  show (if ringsDim sp cd < 0 ∨ colsDim sa < 0 then Except.error PyErr.valueError
      else planeLoop c1 offsets (ringsDim sp cd).toNat (colsDim sa).toNat
        (nblocks sp cd) n 0)
    = (if ringsDim sp cd < 0 ∨ colsDim sa < 0 then Except.error PyErr.valueError
      else planeLoop c2 offsets (ringsDim sp cd).toNat (colsDim sa).toNat
        (nblocks sp cd) n 0)
  by_cases hneg : ringsDim sp cd < 0 ∨ colsDim sa < 0
  · rw [if_pos hneg, if_pos hneg]
  · rw [if_neg hneg, if_neg hneg]
    exact planeLoop_frame c1 c2 offsets _ _ _ hag n 0

theorem ringsDim_five : ∀ cd : Bool, (ringsDim 5 cd).toNat = if cd then 18 else 16 := by
  intro cd
  cases cd <;> with_unfolding_all decide

theorem colsDim_five : (colsDim 5).toNat = 72 := by with_unfolding_all decide

theorem nblocks_five : ∀ cd : Bool, nblocks 5 cd = if cd then 18 else 16 := by
  intro cd
  cases cd <;> with_unfolding_all decide

/-- C3: at steps 5 and 5, a successful extraction returns one grid per
plane of shape 16 rings by 72 columns uncorrected and 18 rings by 72
columns corrected; the number of 8-line blocks the loop walks equals that
ring count (polar_max over step_polar, 80 or 90 over 5); and the result
depends only on the lines from offset plus 1 through offset plus 8 times
that block count for each resolved offset, so exactly those consecutive
8-line blocks starting at line offset plus 1 are read. -/
theorem c3_blocks_and_shape (n : ℕ) (offs : List (Option ℕ))
    (content content2 : List String) (cd : Bool) (g : List (List (List ℚ)))
    (h : get_intensities n offs content 5 5 cd = .ok g)
    (hagree : ∀ i off, offs.get? i = some (some off) → ∀ x, off + 1 ≤ x →
      x < off + 1 + 8 * nblocks 5 cd → content.get? x = content2.get? x) :
    g.length = n ∧
    (∀ p ∈ g, p.length = (if cd then 18 else 16) ∧ ∀ r ∈ p, r.length = 72) ∧
    nblocks 5 cd = (if cd then 18 else 16) ∧
    get_intensities n offs content2 5 5 cd = .ok g := by
  obtain ⟨hl, hshape⟩ := get_intensities_ok_shape n offs content 5 5 cd g h
  refine ⟨hl, ?_, nblocks_five cd, ?_⟩
  · intro p hp
    obtain ⟨hp1, hp2⟩ := hshape p hp
    refine ⟨by rw [hp1, ringsDim_five], ?_⟩
    intro r hr
    rw [hp2 r hr, colsDim_five]
  · rw [← get_intensities_frame n offs content content2 5 5 cd hagree]
    exact h

/-- Witness for c3_blocks_and_shape: a 130-line all-blank file, one plane
with offset 0, uncorrected; the returned grid is the 16 by 72 zero grid. -/
theorem c3_blocks_and_shape_witness :
    [List.replicate 16 (List.replicate 72 (0 : ℚ))].length = 1 ∧
    (∀ p ∈ [List.replicate 16 (List.replicate 72 (0 : ℚ))],
      p.length = (if false then 18 else 16) ∧ ∀ r ∈ p, r.length = 72) ∧
    nblocks 5 false = (if false then 18 else 16) ∧
    get_intensities 1 [some 0] exBlank130 5 5 false
      = .ok [List.replicate 16 (List.replicate 72 (0 : ℚ))] :=
  c3_blocks_and_shape 1 [some 0] exBlank130 exBlank130 false
    [List.replicate 16 (List.replicate 72 (0 : ℚ))]
    (by with_unfolding_all decide)
    (fun i off hoff x hx1 hx2 => rfl)

/-- A slice assignment that fits inside the row succeeds and replaces
exactly the addressed segment. -/
theorem npSetSlice_fits (row : List ℚ) (start : ℕ) (vals : List ℚ)
    (h : start + vals.length ≤ row.length) :
    npSetSlice row start vals = .ok (spliceAt row start vals) := by
  have hlo : min start row.length = start := min_eq_left (by omega)
  have hhi : min (start + vals.length) row.length = start + vals.length := min_eq_left h
  simp only [npSetSlice, hlo, hhi]
  rw [if_pos (by omega)]
  simp only [spliceAt]
  rw [show start + (start + vals.length - start) = start + vals.length from by omega]

/-- A slice assignment of two or more values that runs past the end of the
row is a numpy broadcast ValueError: the clipped slice is shorter than the
value list and no broadcast applies. -/
theorem npSetSlice_overflow (row : List ℚ) (start : ℕ) (vals : List ℚ)
    (h1 : row.length < start + vals.length) (h2 : 2 ≤ vals.length) :
    npSetSlice row start vals = .error .valueError := by
  have hhi : min (start + vals.length) row.length = row.length := min_eq_right (by omega)
  simp only [npSetSlice, hhi]
  rw [if_neg (by omega), if_neg (by omega)]

/-- Splicing inside the row keeps the row length. -/
theorem spliceAt_length (row : List ℚ) (i : ℕ) (vals : List ℚ)
    (h : i + vals.length ≤ row.length) : (spliceAt row i vals).length = row.length := by
  simp only [spliceAt, List.length_append, List.length_take, List.length_drop]
  omega

/-- Two consecutive in-bounds splices amount to one splice of the
concatenated values. -/
theorem spliceAt_spliceAt (row : List ℚ) (i : ℕ) (vs ws : List ℚ)
    (h : i + vs.length + ws.length ≤ row.length) :
    spliceAt (spliceAt row i vs) (i + vs.length) ws = spliceAt row i (vs ++ ws) := by
  have hlen : (row.take i ++ vs).length = i + vs.length := by
    rw [List.length_append, List.length_take]
    omega
  have h1 : List.take (i + vs.length) (spliceAt row i vs) = row.take i ++ vs := by
    rw [spliceAt, List.take_append_eq_append_take,
      List.take_all_of_le (le_of_eq hlen), hlen, Nat.sub_self, List.take_zero,
      List.append_nil]
  have h2 : List.drop (i + vs.length + ws.length) (spliceAt row i vs)
      = row.drop (i + vs.length + ws.length) := by
    rw [spliceAt, List.drop_append_eq_append_drop,
      List.drop_eq_nil_of_le (by rw [hlen]; omega), hlen, List.drop_drop,
      List.nil_append]
    rw [show i + vs.length + (i + vs.length + ws.length - (i + vs.length))
        = i + vs.length + ws.length from by omega]
  rw [show spliceAt (spliceAt row i vs) (i + vs.length) ws
      = List.take (i + vs.length) (spliceAt row i vs) ++ ws
        ++ List.drop (i + vs.length + ws.length) (spliceAt row i vs) from rfl]
  rw [h1, h2, spliceAt, List.length_append]
  rw [show i + (vs.length + ws.length) = i + vs.length + ws.length from by omega]
  simp only [List.append_assoc]

/-- When the parsed tokens of a ring's block fit from position i_pf inside
the ring, the 8-line fill loop writes exactly those tokens there, in line
order, and leaves the rest of the ring unchanged. -/
theorem fillRing_splice (content : List String) : ∀ (rem idx i_pf : ℕ)
    (row : List ℚ) (toks : List ℚ),
    blockTokens content rem idx = .ok toks →
    i_pf + toks.length ≤ row.length →
    fillRing content rem idx i_pf (some row) = .ok (some (spliceAt row i_pf toks)) := by
  intro rem
  induction rem with
  | zero =>
    intro idx i_pf row toks hb hle
    cases hb
    show Except.ok (some row) = Except.ok (some (spliceAt row i_pf []))
    simp [spliceAt, List.take_append_drop]
  | succ n ih =>
    intro idx i_pf row toks hb hle
    cases hline : content.get? idx with
    | none => simp only [blockTokens, hline] at hb; cases hb
    | some line =>
      simp only [blockTokens, hline] at hb
      cases hp : parseTokens (pySplit line) with
      | error e => simp only [hp] at hb; cases hb
      | ok ints =>
        simp only [hp] at hb
        cases hr : blockTokens content n (idx + 1) with
        | error e => simp only [hr] at hb; cases hb
        | ok more =>
          simp only [hr] at hb
          have htoks : toks = ints ++ more := by
            first
            | exact hb
            | exact hb.symm
            | exact Except.ok.inj hb
            | exact Except.ok.inj hb.symm
          subst htoks
          rw [List.length_append] at hle
          have hints : i_pf + ints.length ≤ row.length := by omega
          show (match content.get? idx with
            | none => Except.error PyErr.indexError
            | some line =>
              match parseTokens (pySplit line) with
              | Except.error e => Except.error e
              | Except.ok ints =>
                match npSetSlice row i_pf ints with
                | Except.error e => Except.error e
                | Except.ok row2 => fillRing content n (idx + 1) (i_pf + ints.length) (some row2))
            = Except.ok (some (spliceAt row i_pf (ints ++ more)))
          rw [hline]
          dsimp only []
          rw [hp]
          dsimp only []
          rw [npSetSlice_fits row i_pf ints hints]
          dsimp only []
          rw [ih (idx + 1) (i_pf + ints.length) (spliceAt row i_pf ints) more hr
            (by rw [spliceAt_length row i_pf ints hints]; omega)]
          rw [spliceAt_spliceAt row i_pf ints more (by omega)]

/-- C2, amended: there is no IntensityBlockSizeMismatch check. A ring whose
8-line block parses to at most 360 / stepAzimuthal tokens is accepted
silently: the tokens fill the ring from the left and every remaining cell
keeps the 0.0 that np.zeros put there (a short block is silently
zero-padded, and cells can remain unset). A write that would run past the
ring by two or more values fails only with the generic numpy broadcast
ValueError (a single value would broadcast instead of failing). -/
theorem c2_no_block_size_check (content : List String) (idx cols : ℕ)
    (toks : List ℚ)
    (htoks : blockTokens content 8 idx = .ok toks)
    (hshort : toks.length ≤ cols) :
    fillRing content 8 idx 0 (some (List.replicate cols 0))
      = .ok (some (toks ++ List.replicate (cols - toks.length) 0)) ∧
    ∀ vals : List ℚ, cols < vals.length → 2 ≤ vals.length →
      npSetSlice (List.replicate cols 0) 0 vals = .error .valueError := by
  constructor
  · rw [fillRing_splice content 8 idx 0 (List.replicate cols 0) toks htoks
      (by rw [List.length_replicate]; omega)]
    rw [spliceAt, List.take_zero, List.nil_append, Nat.zero_add,
      List.drop_replicate]
  · intro vals hover htwo
    exact npSetSlice_overflow (List.replicate cols 0) 0 vals
      (by rw [List.length_replicate]; omega) htwo

/-- Witness for c2_no_block_size_check: the short ring block of
exShortBlock (two tokens for a three-cell ring). -/
theorem c2_no_block_size_check_witness :
    fillRing exShortBlock 8 1 0 (some (List.replicate 3 0))
      = .ok (some ([3 / 2, 9 / 4] ++ List.replicate 1 0)) ∧
    ∀ vals : List ℚ, 3 < vals.length → 2 ≤ vals.length →
      npSetSlice (List.replicate 3 0) 0 vals = .error .valueError :=
  c2_no_block_size_check exShortBlock 1 3 [3 / 2, 9 / 4]
    (by with_unfolding_all decide) (by norm_num)

/-- C2, counterexample: the ring block of exShortBlock holds 2 tokens where
int(360 / 120) = 3 cells are expected, yet the Grid Extractor succeeds with
no error of any kind; the third cell of ring 0 is never written and stays
at the 0 from np.zeros, so a cell remains unset on success. -/
theorem c2_counterexample :
    get_intensities 1 [some 0] exShortBlock 40 120 false
      = .ok [[[3 / 2, 9 / 4, 0], [0, 0, 0]]] ∧
    blockTokens exShortBlock 8 1 = .ok [3 / 2, 9 / 4] ∧
    colsDim 120 = 3 :=
  ⟨by with_unfolding_all decide, by with_unfolding_all decide,
   by with_unfolding_all decide⟩

/-- C6, amended: when the correction marker is set, the uncorrected pass
runs first and writes its files; if a plane's corrected header signature is
then absent, the corrected locator leaves that offset unset and the
corrected extraction crashes with a TypeError (not a HeaderNotFound
diagnostic) after the uncorrected files are already written: the run leaves
exactly the min(n_pfs, 6) uncorrected output files as partial output. -/
theorem c6_partial_output_typeerror (infile : String) (content : List String)
    (n : ℕ) (sp sa : ℚ) (offsU : List (Option ℕ)) (gU : List (List (List ℚ)))
    (rest : List (Option ℕ))
    (hext : (infile.endsWith ".RES" || infile.endsWith ".res") = true)
    (hcorr : sniffCorr content = .ok true)
    (hsteps : sniffSteps content = .ok (sp, sa))
    (hsp : 0 < sp) (hsa : 0 < sa) (hn : 0 < n)
    (hU : get_meta_data n (planes.take n) content (fmt2 sp) (fmt2 sa) sp sa false
      = .ok offsU)
    (hI : get_intensities n offsU content sp sa false = .ok gU)
    (hC : get_meta_data n (planes.take n) content (fmt2 sp) (fmt2 sa) sp sa true
      = .ok (none :: rest)) :
    run_program infile content n
      = { files := write_intensities_to_file gU (planes.take n) infile sp sa false,
          outcome := .crashed .typeError } ∧
    (write_intensities_to_file gU (planes.take n) infile sp sa false).length
      = min n 6 := by
  constructor
  · unfold run_program
    rw [if_neg (by rw [hext]; exact fun hcon => hcon rfl)]
    simp only [hcorr, hsteps, hU, hI, hC, if_true]
    rw [get_intensities_unset_first n (none :: rest) content sp sa true hsp hsa hn rfl]
  · have hgU : gU.length = n :=
      (get_intensities_ok_shape n offsU content sp sa false gU hI).1
    unfold write_intensities_to_file
    simp only [List.length_map, List.length_zip, hgU, List.length_take]
    simp only [planes, List.length_cons, List.length_nil]
    omega

/-- Witness for c6_partial_output_typeerror: exCorrMissing with one plane
and steps 10 and 360; the uncorrected pass yields the 8 by 1 zero grid. -/
theorem c6_partial_output_typeerror_witness :
    run_program "a.res" exCorrMissing 1
      = { files := write_intensities_to_file [List.replicate 8 [(0 : ℚ)]]
            (planes.take 1) "a.res" 10 360 false,
          outcome := .crashed .typeError } ∧
    (write_intensities_to_file [List.replicate 8 [(0 : ℚ)]] (planes.take 1)
        "a.res" 10 360 false).length = min 1 6 :=
  c6_partial_output_typeerror "a.res" exCorrMissing 1 10 360 [some 4]
    [List.replicate 8 [(0 : ℚ)]] []
    (by with_unfolding_all decide) (by with_unfolding_all decide)
    (by with_unfolding_all decide) (by norm_num) (by norm_num) (by norm_num)
    (by with_unfolding_all decide) (by with_unfolding_all decide)
    (by with_unfolding_all decide)

/-- C6, counterexample: on exCorrMissing (marker set, uncorrected data for
one plane present, corrected header absent) the run does not raise any
HeaderNotFound and does not write zero files: it writes the one uncorrected
file, then crashes with a TypeError in the corrected pass. -/
theorem c6_counterexample :
    (run_program "a.res" exCorrMissing 1).files.length = 1 ∧
    (run_program "a.res" exCorrMissing 1).outcome = .crashed .typeError :=
  ⟨by with_unfolding_all decide, by with_unfolding_all decide⟩

/-- Indexing a replicate below its length. -/
theorem get?_replicate_lt {α : Type} (a : α) : ∀ (n m : ℕ), m < n →
    (List.replicate n a).get? m = some a := by
  intro n
  induction n with
  | zero => intro m hm; omega
  | succ k ih =>
    intro m hm
    cases m with
    | zero => rfl
    | succ m2 => exact ih m2 (by omega)

/-- Zipping preserves pointwise indexing. -/
theorem zip_get?_both {α β : Type} : ∀ (xs : List α) (ys : List β) (n : ℕ)
    (x : α) (y : β), xs.get? n = some x → ys.get? n = some y →
    (xs.zip ys).get? n = some (x, y) := by
  intro xs
  induction xs with
  | nil => intro ys n x y hx; cases hx
  | cons a t ih =>
    intro ys n x y hx hy
    cases ys with
    | nil => cases hy
    | cons b u =>
      cases n with
      | zero =>
        cases hx
        cases hy
        rfl
      | succ n2 => exact ih u n2 x y hx hy

/-- Indexing the flattening of a list of equal-length rows. -/
theorem flatten_get?_uniform {α : Type} (am : ℕ) : ∀ (ls : List (List α)) (j l : ℕ),
    (∀ r ∈ ls, r.length = am) → l < am →
    ls.flatten.get? (j * am + l) = (ls.get? j).bind (fun r => r.get? l) := by
  intro ls
  induction ls with
  | nil => intro j l hu hl; cases j <;> rfl
  | cons r t ih =>
    intro j l hu hl
    have hrlen : r.length = am := hu r (List.mem_cons_self r t)
    cases j with
    | zero =>
      show (r ++ t.flatten).get? (0 * am + l) = r.get? l
      rw [Nat.zero_mul, Nat.zero_add]
      exact List.get?_append (by omega)
    | succ j2 =>
      show (r ++ t.flatten).get? ((j2 + 1) * am + l) = (t.get? j2).bind (fun r => r.get? l)
      rw [List.get?_append_right (by rw [hrlen]; nlinarith)]
      rw [show (j2 + 1) * am + l - r.length = j2 * am + l from by rw [hrlen]; ring_nf; omega]
      exact ih j2 l (fun x hx => hu x (List.mem_cons_of_mem r hx)) hl

/-- Indexing the flattening of a mapped range of equal-length rows. -/
theorem flatten_map_range_get? {α : Type} (am pm : ℕ) (f : ℕ → List α)
    (hf : ∀ j2, (f j2).length = am) (j l : ℕ) (hj : j < pm) (hl : l < am) :
    (((List.range pm).map f).flatten).get? (j * am + l) = (f j).get? l := by
  rw [flatten_get?_uniform am _ j l (by
    intro r hr
    obtain ⟨j2, _, rfl⟩ := List.mem_map.1 hr
    exact hf j2) hl]
  rw [List.get?_map, List.get?_range hj]
  rfl

/-- Row j * am + l of the single written table for a grid with rows of
length am holds exactly the formatted triple of the polar coordinate
j times step_polar, the azimuthal coordinate l times step_azimuthal and
the grid cell at ring j, column l. -/
theorem write_file_row (g : List (List ℚ)) (plane infile : String) (sp sa : ℚ)
    (cd : Bool) (am j l : ℕ) (v : ℚ)
    (ham : ∀ row ∈ g, row.length = am)
    (hj : j < g.length) (hl : l < am)
    (hcell : (g.get? j).bind (fun row => row.get? l) = some v) :
    ((write_intensities_to_file [g] [plane] infile sp sa cd).headD ("", [])).2.get?
        (j * am + l)
      = some (fmtRow ((j : ℚ) * sp) ((l : ℚ) * sa) v) := by
  have hpm : gridShape1 [g] = g.length := rfl
  have ham2 : gridShape2 [g] = am := by
    show (g.headD []).length = am
    cases g with
    | nil => cases hj
    | cons r t => exact ham r (List.mem_cons_self r t)
  have hw : ((write_intensities_to_file [g] [plane] infile sp sa cd).headD ("", [])).2
      = ((((List.range (gridShape1 [g])).map (fun (j2 : ℕ) => List.replicate (gridShape2 [g]) ((j2 : ℚ) * sp))).flatten.zip (((List.range (gridShape1 [g])).map (fun (_ : ℕ) => (List.range (gridShape2 [g])).map (fun (l2 : ℕ) => (l2 : ℚ) * sa))).flatten)).zip g.flatten).map (fun t2 => fmtRow t2.1.1 t2.1.2 t2.2) := rfl
  rw [hw, hpm, ham2]
  have hpolar : (((List.range g.length).map
      (fun (j2 : ℕ) => List.replicate am ((j2 : ℚ) * sp))).flatten).get? (j * am + l)
      = some ((j : ℚ) * sp) := by
    rw [flatten_map_range_get? am g.length
      (fun (j2 : ℕ) => List.replicate am ((j2 : ℚ) * sp))
      (fun j2 => List.length_replicate am _) j l hj hl]
    exact get?_replicate_lt _ am l hl
  have haz : (((List.range g.length).map
      (fun (_ : ℕ) => (List.range am).map (fun (l2 : ℕ) => (l2 : ℚ) * sa))).flatten).get?
        (j * am + l)
      = some ((l : ℚ) * sa) := by
    rw [flatten_map_range_get? am g.length
      (fun (_ : ℕ) => (List.range am).map (fun (l2 : ℕ) => (l2 : ℚ) * sa))
      (fun _ => by simp) j l hj hl]
    rw [List.get?_map, List.get?_range hl]
    rfl
  have hflat : g.flatten.get? (j * am + l) = some v := by
    rw [flatten_get?_uniform am g j l ham hl]
    exact hcell
  rw [List.get?_map, zip_get?_both _ _ _ _ _ (zip_get?_both _ _ _ _ _ hpolar haz) hflat]
  rfl

/-- C10: rows of a written table appear in ring-major order: the row at
0-based index r (with am = int(360 / step_azimuthal) the grid width) holds
polar ring j = r div am and azimuthal column l = r mod am, so all entries
of ring j precede those of ring j + 1 and within a ring the azimuthal
coordinate is l times step_azimuthal, increasing from 0 in steps of
step_azimuthal. -/
theorem c10_ring_major_rows (g : List (List ℚ)) (plane infile : String)
    (sp sa : ℚ) (cd : Bool) (am r : ℕ) (v : ℚ)
    (ham : ∀ row ∈ g, row.length = am)
    (hcols : am = (colsDim sa).toNat)
    (hr : r < g.length * am)
    (hcell : (g.get? (r / am)).bind (fun row => row.get? (r % am)) = some v) :
    ((write_intensities_to_file [g] [plane] infile sp sa cd).headD ("", [])).2.get? r
      = some (fmtRow (((r / am : ℕ) : ℚ) * sp) (((r % am : ℕ) : ℚ) * sa) v) := by
  rcases Nat.eq_zero_or_pos am with rfl | hpos
  · exact absurd hr (by simp)
  have hj : r / am < g.length := (Nat.div_lt_iff_lt_mul hpos).2 hr
  have hl : r % am < am := Nat.mod_lt _ hpos
  have hsplit : r = r / am * am + r % am := by
    rw [Nat.mul_comm (r / am) am]
    exact (Nat.div_add_mod r am).symm
  rw [show ((write_intensities_to_file [g] [plane] infile sp sa cd).headD ("", [])).2.get? r
      = ((write_intensities_to_file [g] [plane] infile sp sa cd).headD ("", [])).2.get?
          (r / am * am + r % am) from by rw [← hsplit]]
  exact write_file_row g plane infile sp sa cd am (r / am) (r % am) v ham hj hl hcell

/-- Witness for c10_ring_major_rows: a 2 by 2 grid at steps 10 and 180,
row index 3 is ring 1, column 1. -/
theorem c10_ring_major_rows_witness :
    ((write_intensities_to_file [[[1, 2], [3, 4]]] ["111"] "a.res" 10 180 false).headD
        ("", [])).2.get? 3
      = some (fmtRow (((3 / 2 : ℕ) : ℚ) * 10) (((3 % 2 : ℕ) : ℚ) * 180) 4) :=
  c10_ring_major_rows [[1, 2], [3, 4]] "111" "a.res" 10 180 false 2 3 4
    (by with_unfolding_all decide) (by with_unfolding_all decide) (by norm_num)
    (by with_unfolding_all decide)

theorem digitVal_digitChar10 (d : ℕ) (hd : d < 10) : digitVal (digitChar10 d) = some d := by
  interval_cases d <;> decide

theorem digitChar10_isDigit (d : ℕ) : (digitChar10 d).isDigit = true := by
  unfold digitChar10
  split <;> decide

theorem digitChar10_not_ws (d : ℕ) : (digitChar10 d).isWhitespace = false := by
  unfold digitChar10
  split <;> decide

theorem digitChar10_ne_dot (d : ℕ) : digitChar10 d ≠ '.' := by
  unfold digitChar10
  split <;> decide

theorem digitChar10_ne_minus (d : ℕ) : digitChar10 d ≠ '-' := by
  unfold digitChar10
  split <;> decide

theorem digitChar10_ne_plus (d : ℕ) : digitChar10 d ≠ '+' := by
  unfold digitChar10
  split <;> decide

theorem natDigitsAux_succ (f m : ℕ) : natDigitsAux (f + 1) m
    = if m < 10 then [digitChar10 m]
      else natDigitsAux f (m / 10) ++ [digitChar10 (m % 10)] := rfl

/-- Every character a digit rendering produces is a decimal digit char. -/
theorem natDigitsAux_mem : ∀ (fuel m : ℕ) (c : Char), c ∈ natDigitsAux fuel m →
    ∃ d, c = digitChar10 d := by
  intro fuel
  induction fuel with
  | zero =>
    intro m c hc
    rw [show natDigitsAux 0 m = [digitChar10 m] from rfl] at hc
    exact ⟨m, by simpa using hc⟩
  | succ f ih =>
    intro m c hc
    by_cases h10 : m < 10
    · rw [natDigitsAux_succ, if_pos h10] at hc
      exact ⟨m, by simpa using hc⟩
    · rw [natDigitsAux_succ, if_neg h10] at hc
      rcases List.mem_append.1 hc with hin | hin
      · exact ih (m / 10) c hin
      · exact ⟨m % 10, by simpa using hin⟩

theorem natDigitsAux_ne_nil (fuel m : ℕ) : natDigitsAux fuel m ≠ [] := by
  cases fuel with
  | zero => simp [natDigitsAux]
  | succ f =>
    unfold natDigitsAux
    split
    · simp
    · simp

theorem parseDigitsAux_append (ys : List Char) : ∀ (xs : List Char) (acc : ℕ),
    parseDigitsAux acc (xs ++ ys)
      = match parseDigitsAux acc xs with
        | some a => parseDigitsAux a ys
        | none => none := by
  intro xs
  induction xs with
  | nil => intro acc; rfl
  | cons c cs ih =>
    intro acc
    show parseDigitsAux acc (c :: (cs ++ ys)) = _
    cases hdv : digitVal c with
    | none => simp [parseDigitsAux, hdv]
    | some d => simp [parseDigitsAux, hdv, ih]

/-- Parsing the digits of m accumulates m onto a left-shifted accumulator. -/
theorem parseDigitsAux_natDigitsAux : ∀ (fuel m : ℕ), m ≤ fuel → ∀ acc,
    parseDigitsAux acc (natDigitsAux fuel m)
      = some (acc * 10 ^ (natDigitsAux fuel m).length + m) := by
  intro fuel
  induction fuel with
  | zero =>
    intro m hm acc
    interval_cases m
    rw [show natDigitsAux 0 0 = [digitChar10 0] from rfl]
    simp [parseDigitsAux, digitVal_digitChar10 0 (by norm_num)]
  | succ f ih =>
    intro m hm acc
    by_cases h10 : m < 10
    · rw [natDigitsAux_succ, if_pos h10]
      simp [parseDigitsAux, digitVal_digitChar10 m h10]
    · rw [natDigitsAux_succ, if_neg h10]
      rw [parseDigitsAux_append]
      have hdivle : m / 10 ≤ f := by
        have := Nat.div_lt_self (show 0 < m by omega) (show 1 < 10 by norm_num)
        omega
      rw [ih (m / 10) hdivle acc]
      have hdv := digitVal_digitChar10 (m % 10) (Nat.mod_lt _ (by norm_num))
      simp only [parseDigitsAux, hdv, List.length_append, List.length_cons,
        List.length_nil]
      have hpow : 10 ^ ((natDigitsAux f (m / 10)).length + (0 + 1))
          = 10 ^ (natDigitsAux f (m / 10)).length * 10 := by
        rw [pow_succ]
      rw [hpow]
      congr 1
      have hdm : m / 10 * 10 + m % 10 = m := by omega
      ring_nf
      omega

theorem parseDigits_natDigits (m : ℕ) : parseDigitsAux 0 (natDigits m) = some m := by
  have h := parseDigitsAux_natDigitsAux m m le_rfl 0
  rw [show natDigits m = natDigitsAux m m from rfl, h]
  simp

theorem breakDot_noDot : ∀ (cs : List Char), (∀ c ∈ cs, c ≠ '.') →
    breakDot cs = (cs, none) := by
  intro cs
  induction cs with
  | nil => intro h; rfl
  | cons c t ih =>
    intro h
    show (if c = '.' then ([], some t)
      else ((c :: (breakDot t).1, (breakDot t).2) : List Char × Option (List Char))) = _
    rw [if_neg (h c (List.mem_cons_self c t)),
      ih (fun x hx => h x (List.mem_cons_of_mem c hx))]

theorem breakDot_firstDot : ∀ (w f : List Char), (∀ c ∈ w, c ≠ '.') →
    breakDot (w ++ '.' :: f) = (w, some f) := by
  intro w f
  induction w with
  | nil =>
    intro h
    show (if '.' = '.' then (([], some f) : List Char × Option (List Char)) else _) = _
    rw [if_pos rfl]
  | cons c t ih =>
    intro h
    show (if c = '.' then ([], some (t ++ '.' :: f))
      else ((c :: (breakDot (t ++ '.' :: f)).1, (breakDot (t ++ '.' :: f)).2)
        : List Char × Option (List Char))) = _
    rw [if_neg (h c (List.mem_cons_self c t)),
      ih (fun x hx => h x (List.mem_cons_of_mem c hx))]

/-- Parsing the digit rendering of a natural number as an unsigned decimal
literal recovers the number. -/
theorem parseUnsigned_natDigits (m : ℕ) : parseUnsigned (natDigits m) = some (m : ℚ) := by
  have hnd : ∀ c ∈ natDigits m, c ≠ '.' := by
    intro c hc
    obtain ⟨d, rfl⟩ := natDigitsAux_mem m m c hc
    exact digitChar10_ne_dot d
  simp only [parseUnsigned, breakDot_noDot (natDigits m) hnd]
  rw [if_neg (show ¬natDigits m = [] from natDigitsAux_ne_nil m m),
    parseDigits_natDigits]
  rfl

theorem natToStr_data (m : ℕ) : (natToStr m).data = natDigits m := rfl

/-- Parsing back the decimal rendering of a natural number. -/
theorem parseFloatQ_natToStr (m : ℕ) : parseFloatQ (natToStr m) = some (m : ℚ) := by
  cases hnd : natDigits m with
  | nil => exact absurd hnd (natDigitsAux_ne_nil m m)
  | cons c cs =>
    have hc : c ∈ natDigits m := by rw [hnd]; exact List.mem_cons_self c cs
    obtain ⟨d, rfl⟩ := natDigitsAux_mem m m c hc
    show (match (natToStr m).data with
      | [] => none
      | c2 :: rest =>
        if c2 = '-' then (parseUnsigned rest).map (fun q => -q)
        else if c2 = '+' then parseUnsigned rest
        else parseUnsigned (c2 :: rest)) = some (m : ℚ)
    rw [natToStr_data, hnd]
    dsimp only []
    rw [if_neg (digitChar10_ne_minus d), if_neg (digitChar10_ne_plus d), ← hnd]
    exact parseUnsigned_natDigits m

theorem pyTrunc_natCast (m : ℕ) : pyTrunc ((m : ℕ) : ℚ) = m := by
  unfold pyTrunc
  rw [if_neg (not_lt.2 (by positivity))]
  exact_mod_cast Int.floor_natCast m

theorem fmtI_natCast (m : ℕ) : fmtI ((m : ℕ) : ℚ) = natToStr m := by
  unfold fmtI intToStr
  rw [pyTrunc_natCast]
  rw [if_neg (by exact_mod_cast Nat.not_lt_zero m)]
  rw [Int.natAbs_ofNat]

theorem roundHalfEven_intCast (k : ℤ) : roundHalfEven ((k : ℚ)) = k := by
  unfold roundHalfEven
  rw [Int.floor_intCast]
  rw [if_pos (by rw [sub_self]; norm_num)]

theorem natDigitsAux_small (fuel m : ℕ) (h : m < 10) :
    natDigitsAux fuel m = [digitChar10 m] := by
  cases fuel with
  | zero => rfl
  | succ f => rw [natDigitsAux_succ, if_pos h]

theorem natDigitsAux_two (fuel m : ℕ) (h1 : 10 ≤ m) (h2 : m < 100) (hf : 1 ≤ fuel) :
    natDigitsAux fuel m = [digitChar10 (m / 10), digitChar10 (m % 10)] := by
  cases fuel with
  | zero => omega
  | succ f =>
    rw [natDigitsAux_succ, if_neg (by omega), natDigitsAux_small f (m / 10) (by omega)]
    rfl

theorem natDigits_small (m : ℕ) (h : m < 10) : natDigits m = [digitChar10 m] :=
  natDigitsAux_small m m h

theorem natDigits_two (m : ℕ) (h1 : 10 ≤ m) (h2 : m < 100) :
    natDigits m = [digitChar10 (m / 10), digitChar10 (m % 10)] :=
  natDigitsAux_two m m h1 h2 (by omega)

theorem natDigits_three (m : ℕ) (h1 : 100 ≤ m) (h2 : m < 1000) :
    natDigits m = [digitChar10 (m / 100), digitChar10 (m / 10 % 10),
      digitChar10 (m % 10)] := by
  show natDigitsAux m m = _
  cases m with
  | zero => omega
  | succ f =>
    rw [natDigitsAux_succ, if_neg (by omega),
      natDigitsAux_two f ((f + 1) / 10) (by omega) (by omega) (by omega)]
    rw [Nat.div_div_eq_div_mul]
    rfl

theorem pad3_mem (m : ℕ) : ∀ c ∈ (pad3 m).data, ∃ d, c = digitChar10 d := by
  intro c hc
  unfold pad3 at hc
  split_ifs at hc with h10 h100
  · rw [String.data_append, show ("00" : String).data = ['0', '0'] from rfl] at hc
    rcases List.mem_append.1 hc with h | h
    · rcases List.mem_cons.1 h with rfl | h2
      · exact ⟨0, rfl⟩
      · exact ⟨0, by simpa using h2⟩
    · exact natDigitsAux_mem m m c h
  · rw [String.data_append, show ("0" : String).data = ['0'] from rfl] at hc
    rcases List.mem_append.1 hc with h | h
    · exact ⟨0, by simpa using h⟩
    · exact natDigitsAux_mem m m c h
  · exact natDigitsAux_mem m m c hc

theorem pad3_parse (m : ℕ) : parseDigitsAux 0 (pad3 m).data = some m := by
  unfold pad3
  split_ifs with h10 h100
  · rw [String.data_append, show ("00" : String).data = ['0', '0'] from rfl]
    rw [parseDigitsAux_append, show parseDigitsAux 0 ['0', '0'] = some 0 from by decide]
    exact parseDigits_natDigits m
  · rw [String.data_append, show ("0" : String).data = ['0'] from rfl]
    rw [parseDigitsAux_append, show parseDigitsAux 0 ['0'] = some 0 from by decide]
    exact parseDigits_natDigits m
  · exact parseDigits_natDigits m

theorem pad3_length (m : ℕ) (hm : m < 1000) : (pad3 m).data.length = 3 := by
  unfold pad3
  split_ifs with h10 h100
  · rw [String.data_append, show ("00" : String).data = ['0', '0'] from rfl,
      natToStr_data, natDigits_small m h10]
    rfl
  · rw [String.data_append, show ("0" : String).data = ['0'] from rfl,
      natToStr_data, natDigits_two m (by omega) h100]
    rfl
  · rw [natToStr_data, natDigits_three m (by omega) hm]
    rfl

/-- Parsing the unsigned decimal body digits-dot-pad3 recovers the scaled
value over 1000. -/
theorem parseUnsigned_fixed3 (a : ℕ) :
    parseUnsigned (natDigits (a / 1000) ++ '.' :: (pad3 (a % 1000)).data)
      = some ((a : ℚ) / 1000) := by
  have hnd : ∀ c ∈ natDigits (a / 1000), c ≠ '.' := by
    intro c hc
    obtain ⟨d, rfl⟩ := natDigitsAux_mem _ _ c hc
    exact digitChar10_ne_dot d
  have hmod : a % 1000 < 1000 := Nat.mod_lt _ (by norm_num)
  simp only [parseUnsigned, breakDot_firstDot _ _ hnd]
  rw [if_neg (by
    intro hcon
    exact natDigitsAux_ne_nil (a / 1000) (a / 1000) hcon.1)]
  rw [show parseDigitsAux 0 (natDigits (a / 1000)) = some (a / 1000) from
    parseDigits_natDigits (a / 1000)]
  rw [pad3_parse (a % 1000), pad3_length (a % 1000) hmod]
  dsimp only []
  congr 1
  have hdm : 1000 * (a / 1000) + a % 1000 = a := Nat.div_add_mod a 1000
  have hcast : ((a : ℚ)) = 1000 * ((a / 1000 : ℕ) : ℚ) + ((a % 1000 : ℕ) : ℚ) := by
    exact_mod_cast hdm.symm
  rw [hcast]
  push_cast
  ring

/-- Parsing back the fixed-3-decimal rendering of a value whose thousandth
scaling is an integer recovers the value exactly. -/
theorem parseFloatQ_fmt3 (v : ℚ) (hv : (v * 1000).den = 1) :
    parseFloatQ (fmt3 v) = some v := by
  have hvk : (((v * 1000).num : ℤ) : ℚ) = v * 1000 := by
    have h := Rat.num_div_den (v * 1000)
    rw [hv] at h
    simpa using h
  have hround : roundHalfEven (v * 1000) = (v * 1000).num := by
    rw [← hvk]
    exact roundHalfEven_intCast (v * 1000).num
  have hfmt : fmt3 v = (if (v * 1000).num < 0 then "-" else "")
      ++ natToStr ((v * 1000).num.natAbs / 1000) ++ "."
      ++ pad3 ((v * 1000).num.natAbs % 1000) := by
    unfold fmt3
    rw [hround]
  rcases lt_or_ge (v * 1000).num 0 with hneg | hpos
  · have hdata : (fmt3 v).data
        = '-' :: (natDigits ((v * 1000).num.natAbs / 1000)
          ++ '.' :: (pad3 ((v * 1000).num.natAbs % 1000)).data) := by
      rw [hfmt, if_pos hneg]
      simp [String.data_append, natToStr_data]
    show (match (fmt3 v).data with
      | [] => none
      | c :: rest =>
        if c = '-' then (parseUnsigned rest).map (fun q => -q)
        else if c = '+' then parseUnsigned rest
        else parseUnsigned (c :: rest)) = some v
    rw [hdata]
    dsimp only []
    rw [if_pos rfl, parseUnsigned_fixed3]
    have habs : (((v * 1000).num.natAbs : ℕ) : ℚ) = -((v * 1000).num : ℚ) := by
      rw [Int.cast_natAbs, abs_of_neg hneg]
      push_cast
      ring
    show some (-((((v * 1000).num.natAbs : ℕ) : ℚ) / 1000)) = some v
    rw [habs, hvk]
    congr 1
    ring
  · have hdata : (fmt3 v).data
        = natDigits ((v * 1000).num.natAbs / 1000)
          ++ '.' :: (pad3 ((v * 1000).num.natAbs % 1000)).data := by
      rw [hfmt, if_neg (not_lt.2 hpos)]
      simp [String.data_append, natToStr_data]
    cases hnd : natDigits ((v * 1000).num.natAbs / 1000) with
    | nil => exact absurd hnd (natDigitsAux_ne_nil _ _)
    | cons c cs =>
      have hcmem : c ∈ natDigits ((v * 1000).num.natAbs / 1000) := by
        rw [hnd]
        exact List.mem_cons_self c cs
      obtain ⟨d, rfl⟩ := natDigitsAux_mem _ _ _ hcmem
      show (match (fmt3 v).data with
        | [] => none
        | c2 :: rest =>
          if c2 = '-' then (parseUnsigned rest).map (fun q => -q)
          else if c2 = '+' then parseUnsigned rest
          else parseUnsigned (c2 :: rest)) = some v
      rw [hdata, hnd, List.cons_append]
      dsimp only []
      rw [if_neg (digitChar10_ne_minus d), if_neg (digitChar10_ne_plus d)]
      rw [show (digitChar10 d :: (cs ++ '.' :: (pad3 ((v * 1000).num.natAbs % 1000)).data))
          = natDigits ((v * 1000).num.natAbs / 1000)
            ++ '.' :: (pad3 ((v * 1000).num.natAbs % 1000)).data from by
        rw [hnd, List.cons_append]]
      rw [parseUnsigned_fixed3]
      have habs : (((v * 1000).num.natAbs : ℕ) : ℚ) = ((v * 1000).num : ℚ) := by
        rw [Int.cast_natAbs, abs_of_nonneg hpos]
      rw [habs, hvk]
      congr 1
      ring

theorem splitWsAux_nonws : ∀ (t rest acc : List Char),
    (∀ c ∈ t, c.isWhitespace = false) →
    splitWsAux (t ++ rest) acc = splitWsAux rest (t.reverse ++ acc) := by
  intro t
  induction t with
  | nil => intro rest acc h; rfl
  | cons c cs ih =>
    intro rest acc h
    show (if c.isWhitespace then
        if acc = [] then splitWsAux (cs ++ rest) []
        else acc.reverse :: splitWsAux (cs ++ rest) []
      else splitWsAux (cs ++ rest) (c :: acc)) = _
    rw [h c (List.mem_cons_self c cs)]
    rw [if_neg (by simp)]
    rw [ih rest (c :: acc) (fun x hx => h x (List.mem_cons_of_mem c hx))]
    rw [List.reverse_cons, List.append_assoc]
    rfl

theorem splitWsAux_token (t : List Char) (ht : t ≠ [])
    (hnw : ∀ c ∈ t, c.isWhitespace = false) (rest : List Char) :
    splitWsAux (t ++ ' ' :: rest) [] = t :: splitWsAux rest [] := by
  rw [splitWsAux_nonws t (' ' :: rest) [] hnw, List.append_nil]
  show (if (' ').isWhitespace then
      if t.reverse = [] then splitWsAux rest []
      else t.reverse.reverse :: splitWsAux rest []
    else splitWsAux rest (' ' :: t.reverse)) = t :: splitWsAux rest []
  rw [if_pos (by decide), if_neg (fun hcon => ht (by simpa using hcon)),
    List.reverse_reverse]

theorem splitWsAux_last (t : List Char) (ht : t ≠ [])
    (hnw : ∀ c ∈ t, c.isWhitespace = false) :
    splitWsAux t [] = [t] := by
  have h := splitWsAux_nonws t [] [] hnw
  rw [List.append_nil] at h
  rw [h, List.append_nil]
  show (if t.reverse = [] then [] else [t.reverse.reverse]) = [t]
  rw [if_neg (fun hcon => ht (by simpa using hcon)), List.reverse_reverse]

theorem stringMk_data (s : String) : String.mk s.data = s := by
  cases s
  rfl

theorem fmtRow_data (p a v : ℚ) :
    (fmtRow p a v).data
      = (fmtI p).data ++ ' ' :: ((fmtI a).data ++ ' ' :: (fmt3 v).data) := by
  unfold fmtRow
  simp [String.data_append]

/-- Tokenizing a written row gives back its three formatted fields. -/
theorem pySplit_fmtRow (p a v : ℚ)
    (h1 : (fmtI p).data ≠ []) (hn1 : ∀ c ∈ (fmtI p).data, c.isWhitespace = false)
    (h2 : (fmtI a).data ≠ []) (hn2 : ∀ c ∈ (fmtI a).data, c.isWhitespace = false)
    (h3 : (fmt3 v).data ≠ []) (hn3 : ∀ c ∈ (fmt3 v).data, c.isWhitespace = false) :
    pySplit (fmtRow p a v) = [fmtI p, fmtI a, fmt3 v] := by
  unfold pySplit
  rw [fmtRow_data, splitWsAux_token _ h1 hn1, splitWsAux_token _ h2 hn2,
    splitWsAux_last _ h3 hn3]
  simp [stringMk_data]

theorem natToStr_ne_nil (m : ℕ) : (natToStr m).data ≠ [] := natDigitsAux_ne_nil m m

theorem natToStr_not_ws (m : ℕ) : ∀ c ∈ (natToStr m).data, c.isWhitespace = false := by
  intro c hc
  obtain ⟨d, rfl⟩ := natDigitsAux_mem m m c hc
  exact digitChar10_not_ws d

theorem fmt3_ne_nil (v : ℚ) : (fmt3 v).data ≠ [] := by
  unfold fmt3
  intro hcon
  simp [String.data_append] at hcon

theorem fmt3_not_ws (v : ℚ) : ∀ c ∈ (fmt3 v).data, c.isWhitespace = false := by
  intro c hc
  unfold fmt3 at hc
  simp only [String.data_append, List.mem_append] at hc
  rcases hc with ((hs | hd) | hdot) | hp
  · split_ifs at hs
    · simp at hs
      subst hs
      decide
    · simp at hs
  · obtain ⟨d, rfl⟩ := natDigitsAux_mem _ _ c hd
    exact digitChar10_not_ws d
  · have : c = '.' := by simpa using hdot
    subst this
    decide
  · obtain ⟨d, rfl⟩ := pad3_mem _ c hp
    exact digitChar10_not_ws d

/-- C7, amended: the Table Writer formats each coordinate with the integer
format, truncating it toward zero; when the steps are whole numbers (as in
every RES file with integral step sizes) the row at ring j, column l of the
written table is exactly the formatted triple of j times stepPolar, l times
stepAzimuthal and the cell value, and reading that row back recovers the
coordinates exactly as j times stepPolar and l times stepAzimuthal and the
intensity exactly, since every grid value carries at most 3 decimals. -/
theorem c7_roundtrip_integral_steps (g : List (List ℚ)) (plane infile : String)
    (spN saN : ℕ) (cd : Bool) (am j l : ℕ) (v : ℚ)
    (ham : ∀ row ∈ g, row.length = am)
    (hj : j < g.length) (hl : l < am)
    (hcell : (g.get? j).bind (fun row => row.get? l) = some v)
    (hv : (v * 1000).den = 1) :
    ((write_intensities_to_file [g] [plane] infile (spN : ℚ) (saN : ℚ) cd).headD
        ("", [])).2.get? (j * am + l)
      = some (fmtRow ((j : ℚ) * (spN : ℚ)) ((l : ℚ) * (saN : ℚ)) v) ∧
    parseRow (fmtRow ((j : ℚ) * (spN : ℚ)) ((l : ℚ) * (saN : ℚ)) v)
      = some (((j * spN : ℕ) : ℚ), ((l * saN : ℕ) : ℚ), v) := by
  have hcast1 : (j : ℚ) * (spN : ℚ) = ((j * spN : ℕ) : ℚ) := by push_cast; ring
  have hcast2 : (l : ℚ) * (saN : ℚ) = ((l * saN : ℕ) : ℚ) := by push_cast; ring
  constructor
  · exact write_file_row g plane infile (spN : ℚ) (saN : ℚ) cd am j l v ham hj hl hcell
  · have hfi1 : fmtI ((j : ℚ) * (spN : ℚ)) = natToStr (j * spN) := by
      rw [hcast1, fmtI_natCast]
    have hfi2 : fmtI ((l : ℚ) * (saN : ℚ)) = natToStr (l * saN) := by
      rw [hcast2, fmtI_natCast]
    unfold parseRow
    rw [pySplit_fmtRow _ _ _
      (by rw [hfi1]; exact natToStr_ne_nil _)
      (by rw [hfi1]; exact natToStr_not_ws _)
      (by rw [hfi2]; exact natToStr_ne_nil _)
      (by rw [hfi2]; exact natToStr_not_ws _)
      (fmt3_ne_nil v) (fmt3_not_ws v)]
    rw [List.map_cons, List.map_cons, List.map_cons, List.map_nil]
    rw [hfi1, hfi2, parseFloatQ_natToStr, parseFloatQ_natToStr, parseFloatQ_fmt3 v hv]

/-- Witness for c7_roundtrip_integral_steps: a single-ring grid with cells
0 and 1.5 at steps 5 and 5, ring 0, column 1. -/
theorem c7_roundtrip_integral_steps_witness :
    ((write_intensities_to_file [[[0, 3 / 2]]] ["111"] "a.res" ((5 : ℕ) : ℚ)
        ((5 : ℕ) : ℚ) false).headD ("", [])).2.get? (0 * 2 + 1)
      = some (fmtRow ((0 : ℚ) * ((5 : ℕ) : ℚ)) ((1 : ℚ) * ((5 : ℕ) : ℚ)) (3 / 2)) ∧
    parseRow (fmtRow ((0 : ℚ) * ((5 : ℕ) : ℚ)) ((1 : ℚ) * ((5 : ℕ) : ℚ)) (3 / 2))
      = some (((0 * 5 : ℕ) : ℚ), ((1 * 5 : ℕ) : ℚ), 3 / 2) :=
  c7_roundtrip_integral_steps [[0, 3 / 2]] "111" "a.res" 5 5 false 2 0 1 (3 / 2)
    (by with_unfolding_all decide) (by norm_num) (by norm_num)
    (by with_unfolding_all decide) (by with_unfolding_all decide)

/-- C7, counterexample: with the fractional step 2.5 the written polar
coordinate of ring 1 is the truncated integer 2, and reading the table back
yields 2, not 1 times stepPolar = 2.5: the round trip does not reproduce
the coordinate exactly for every grid. -/
theorem c7_counterexample :
    write_intensities_to_file [[[1], [2]]] ["111"] "a.res" (5 / 2) (5 / 2) false
      = [("a_pf111_uncorr.dat", ["0 0 1.000", "2 0 2.000"])] ∧
    parseRow "2 0 2.000" = some (2, 0, 2) ∧
    ((2 : ℚ) ≠ (1 : ℚ) * (5 / 2)) :=
  ⟨by with_unfolding_all decide, by with_unfolding_all decide,
   by with_unfolding_all decide⟩
